import Mathlib

/-!
Verification development for two CIRCT passes:

* `LowerHWtoBTOR2` (`lib/Dialect/HW/Transforms/LowerHWtoBTOR2.cpp`): a walker
  over structural HW-IR modules that emits BTOR2 text lines, one per
  instruction, with a monotonically increasing line identifier (LID).
* `LowerLTLToCore` (`lib/Conversion/LTLToCore/LTLToCore.cpp`): conversion
  patterns rewriting `verif.has_been_reset` and clocked `verif.assert`
  properties into core HW/Comb/Seq/SV operations.

The first half of this file shallowly embeds the emission state and the
emission routines of the BTOR2 pass; the second half embeds the LTL-to-core
conversion patterns.  Theorems about the spec's claims follow the definitions.
-/

/-! ### Association lists

`llvm::DenseMap` is modelled as an association list where insertion conses a
new binding in front (later bindings shadow earlier ones, matching DenseMap
overwrite semantics).  `DenseMap::at` on the sort/constant tables is modelled
as a defaulting lookup yielding the `noLID` sentinel for a missing key,
matching the guard comparisons (`!= noLID`) the source performs on the result.
-/

def alookup {β : Type} : List (Nat × β) → Nat → Option β
  | [], _ => none
  | (k, v) :: es, a => if a = k then some v else alookup es a

def alookupP {β : Type} : List ((Int × Nat) × β) → (Int × Nat) → Option β
  | [], _ => none
  | (k, v) :: es, a => if a = k then some v else alookupP es a

theorem alookup_cons {β : Type} (k : Nat) (v : β) (es : List (Nat × β)) (a : Nat) :
    alookup ((k, v) :: es) a = if a = k then some v else alookup es a := rfl

/-! ### BTOR2 data model -/

/-- Sentinel LID used by the source (`-1UL` on a 64-bit `size_t`). -/
def noLID : Nat := 2 ^ 64 - 1

/-- The string constant the source stores for the bit-vector sort keyword:
`static constexpr StringLiteral bitvecStr = "bitvecStr";`. -/
def bitvecStr : String := "bitvecStr"

def resetStr : String := "reset"

/-- A single BTOR2 instruction (the tokens following the leading LID). -/
inductive Instr where
  | sortI (kw : String) (width : Nat)
  | inputI (sid : Nat) (name : String)
  | constdI (sid : Nat) (value : Int)
  | zeroI (sid : Nat)
  | binopI (name : String) (sid : Nat) (op1 op2 : Nat)
  | stateI (sid : Nat) (name : String)
  | iteI (sid : Nat) (cond t f : Nat)
  | nextI (sid : Nat) (reg val : Nat)
  deriving DecidableEq

/-- One line of the output stream: either a numbered BTOR2 instruction or the
per-module banner separator. -/
inductive OutLine where
  | inst (lid : Nat) (i : Instr)
  | banner
  deriving DecidableEq

/-- An IR value: a module port (block argument) or an operation result.
Operations are identified by a numeric identity standing in for `Operation *`. -/
inductive BValue where
  | blockArg (idx : Nat)
  | opResult (opId : Nat)
  deriving DecidableEq

/-- `Value::getDefiningOp()`: `nullptr` (`none`) for block arguments. -/
def BValue.definingOp : BValue → Option Nat
  | .blockArg _ => none
  | .opResult o => some o

/-- `hw::PortInfo` restricted to the fields the pass reads. -/
structure PortInfo where
  name : String
  isInput : Bool
  isClock : Bool
  width : Nat
  argNum : Nat
  deriving DecidableEq

/-- `seq::FirRegOp` data used by the pass. -/
structure RegInfo where
  opId : Nat
  width : Nat
  name : String
  next : BValue
  deriving DecidableEq

/-- The HW-IR operations the embedding covers; the pass's `TypeSwitch` default
case silently ignores everything else (`otherOp`). -/
inductive HWOp where
  | constantOp (opId : Nat) (width : Nat) (value : Int)
  | wireOp (opId : Nat) (operand : BValue)
  | binOp (opId : Nat) (inst : String) (width : Nat) (op1 op2 : BValue)
  | firRegOp (r : RegInfo)
  | outputOp
  | otherOp
  deriving DecidableEq

/-- A flat HW module: ports in declaration order, then the body walk order. -/
structure HWModule where
  ports : List PortInfo
  body : List HWOp
  deriving DecidableEq

/-- The pass's emission state (fields of `LowerHWtoBTOR2Pass`). -/
structure B2State where
  lid : Nat
  resetLID : Nat
  sortToLIDMap : List (Nat × Nat)
  constToLIDMap : List ((Int × Nat) × Nat)
  opLIDMap : List (Nat × Nat)
  opAliasMap : List (Nat × Option Nat)
  inputLIDs : List (Nat × Nat)
  regOps : List RegInfo
  output : List OutLine
  deriving DecidableEq

def initB2State : B2State :=
  { lid := 1, resetLID := noLID, sortToLIDMap := [], constToLIDMap := [],
    opLIDMap := [], opAliasMap := [], inputLIDs := [], regOps := [], output := [] }

/-- Append one numbered line to the stream and bump the counter
(every `llvm::outs() << lid++ << ...` in the source). -/
def emitLine (st : B2State) (i : Instr) : B2State :=
  { st with output := st.output ++ [OutLine.inst st.lid i], lid := st.lid + 1 }

/-! ### Field helper functions -/

/-- `getOpAlias`: one lookup in the alias map; an unmapped op is its own
original.  The argument and result are `Option` since `Operation *` may be
null. -/
def getOpAlias (st : B2State) (op : Option Nat) : Option Nat :=
  match op with
  | none => none
  | some o =>
    match alookup st.opAliasMap o with
    | some t => t
    | none => some o

/-- `getOpLID (Operation *)`: resolve one alias step, then the op-LID map. -/
def getOpLIDop (st : B2State) (op : Option Nat) : Nat :=
  match getOpAlias st op with
  | some d => (alookup st.opLIDMap d).getD noLID
  | none => noLID

/-- `getOpLID (Value)`: as `getOpLIDop` on the defining op, falling back to
the input-LID table when the value is a block argument. -/
def getOpLIDval (st : B2State) (v : BValue) : Nat :=
  match (getOpAlias st v.definingOp).bind (alookup st.opLIDMap) with
  | some l => l
  | none =>
    match v with
    | .blockArg idx => (alookup st.inputLIDs idx).getD noLID
    | .opResult _ => noLID

/-- `setOpLID`: record the current `lid` for a (non-null) op. -/
def setOpLID (st : B2State) (op : Option Nat) : B2State :=
  match op with
  | some o => { st with opLIDMap := (o, st.lid) :: st.opLIDMap }
  | none => st

/-! ### String generation helper functions -/

/-- `genSort`: dedup on the width, then emit `<lid> sort <type> <width>`. -/
def genSort (st : B2State) (type : String) (width : Nat) : B2State :=
  if (alookup st.sortToLIDMap width).getD noLID ≠ noLID then st
  else
    emitLine { st with sortToLIDMap := (width, st.lid) :: st.sortToLIDMap }
      (.sortI type width)

/-- `genInput`: emit `<lid> input <sid> <name>`. -/
def genInput (st : B2State) (width : Nat) (name : String) : B2State :=
  emitLine st (.inputI ((alookup st.sortToLIDMap width).getD noLID) name)

/-- `genConst`: record the op's LID and emit `<lid> constd <sid> <value>`. -/
def genConst (st : B2State) (value : Int) (width : Nat) (op : Nat) : B2State :=
  let st := setOpLID st (some op)
  emitLine st (.constdI ((alookup st.sortToLIDMap width).getD noLID) value)

/-- `genZero`: dedup on `(0, width)`, then emit `<lid> zero <sid>`. -/
def genZero (st : B2State) (width : Nat) : B2State :=
  if (alookupP st.constToLIDMap (0, width)).getD noLID ≠ noLID then st
  else
    emitLine { st with constToLIDMap := ((0, width), st.lid) :: st.constToLIDMap }
      (.zeroI ((alookup st.sortToLIDMap width).getD noLID))

/-- `genBinOp`: record the op's LID and emit the binary instruction. -/
def genBinOp (st : B2State) (inst : String) (binop : Nat) (op1 op2 : BValue)
    (width : Nat) : B2State :=
  let st := setOpLID st (some binop)
  emitLine st (.binopI inst ((alookup st.sortToLIDMap width).getD noLID)
    (getOpLIDval st op1) (getOpLIDval st op2))

/-- `genState`: record the register op's LID and emit `state`. -/
def genState (st : B2State) (srcop : Nat) (width : Nat) (name : String) : B2State :=
  let st := setOpLID st (some srcop)
  emitLine st (.stateI ((alookup st.sortToLIDMap width).getD noLID) name)

/-- `genIte` (LID overload): record `srcop`'s LID and emit `ite`. -/
def genIteLIDs (st : B2State) (srcop : Option Nat) (condLID tLID fLID : Nat)
    (width : Nat) : B2State :=
  let st := setOpLID st srcop
  emitLine st (.iteI ((alookup st.sortToLIDMap width).getD noLID) condLID tLID fLID)

/-- `genNext`: emit `next <sid> <state_lid> <value_lid>`; both LIDs are looked
up through `getOpLID`, hence through one alias step. -/
def genNext (st : B2State) (next : Option Nat) (reg : Nat) (width : Nat) : B2State :=
  emitLine st (.nextI ((alookup st.sortToLIDMap width).getD noLID)
    (getOpLIDop st (some reg)) (getOpLIDop st next))

/-- `requireSort`: ensure the sort line for this width exists. -/
def requireSort (st : B2State) (width : Nat) : B2State :=
  genSort st bitvecStr width

/-! ### Visitor methods -/

/-- `visit(hw::PortInfo &)`: inputs that are not clocks get a sort, an
input-LID table entry, possibly the reset LID, and an `input` line. -/
def visitPort (st : B2State) (p : PortInfo) : B2State :=
  if p.isInput && !p.isClock then
    let st := requireSort st p.width
    let st := { st with inputLIDs := (p.argNum, st.lid) :: st.inputLIDs }
    let st := if p.name = resetStr then { st with resetLID := st.lid } else st
    genInput st p.width p.name
  else st

/-- The body `TypeSwitch`: dispatch on the op kind. -/
def visitOp (st : B2State) (op : HWOp) : B2State :=
  match op with
  | .constantOp opId w v => genConst (requireSort st w) v w opId
  | .wireOp opId operand =>
    { st with opAliasMap := (opId, operand.definingOp) :: st.opAliasMap }
  | .binOp opId inst w op1 op2 => genBinOp (requireSort st w) inst opId op1 op2 w
  | .firRegOp r =>
    let st := requireSort st r.width
    let st := genState st r.opId r.width r.name
    { st with regOps := st.regOps ++ [r] }
  | .outputOp => st
  | .otherOp => st

/-- One iteration of the deferred register-transition loop at the end of
`runOnOperation`: sort and zero for the register's width, then the reset
`ite` (rebinding the next op's LID), then the `next` arc. -/
def transitionStep (st : B2State) (r : RegInfo) : B2State :=
  let next := r.next.definingOp
  let st := genSort st bitvecStr r.width
  let st := genZero st r.width
  let nextLID := getOpLIDop st next
  let st := genIteLIDs st next st.resetLID
    ((alookupP st.constToLIDMap (0, r.width)).getD noLID) nextLID r.width
  genNext st next r.opId r.width

/-- Walk one module: ports, then body, then the register-transition loop over
the accumulated `regOps` (which the pass never clears), then the banner. -/
def runModule (st : B2State) (m : HWModule) : B2State :=
  let st := m.ports.foldl visitPort st
  let st := m.body.foldl visitOp st
  let st := st.regOps.foldl transitionStep st
  { st with output := st.output ++ [OutLine.banner] }

/-- `runOnOperation`: walk every top-level module with one shared state. -/
def runPass (ms : List HWModule) : B2State :=
  ms.foldl runModule initB2State

/-- LIDs of the numbered instruction lines of a stream, in emission order. -/
def instLids (out : List OutLine) : List Nat :=
  out.filterMap fun o =>
    match o with
    | .inst l _ => some l
    | .banner => none

/-! ### LTL-to-Core data model

The conversion patterns of `LTLToCore.cpp` build Comb/HW/Seq operations via a
rewriter.  Combinational results are modelled as expressions over named 1-bit
inputs (`varE`), constants and register outputs; registers created through
`seq::CompRegOp` are collected in creation order, and `regE i` denotes the
output of the `i`-th created register (a `Backedge` is the `regE` of the
register that later sets it). -/

inductive CExpr where
  | constE (width : Nat) (value : Nat)
  | varE (name : String)
  | regE (idx : Nat)
  | orE (a b : CExpr)
  | xorE (a b : CExpr)
  | andE (a b : CExpr)
  | addE (width : Nat) (a b : CExpr)
  | eqE (a b : CExpr)
  | ultE (a b : CExpr)
  | muxE (c t f : CExpr)
  deriving DecidableEq

/-- A `seq::CompRegOp` as created by the patterns: data input, optional
synchronous reset signal and reset value, name, and power-on value. -/
structure CompReg where
  width : Nat
  input : CExpr
  resetSig : Option CExpr
  resetVal : Option CExpr
  name : String
  powerOn : Option CExpr
  deriving DecidableEq

/-- Rewriter events: operation creations, replacements and erasures, recorded
in program order so that failure paths can be checked to perform none. -/
inductive RWEvent where
  | created (kind : String)
  | replaced (kind : String)
  | erasedOp (kind : String)
  deriving DecidableEq

/-- Rewriter log: events plus the registers created so far. -/
structure RW where
  events : List RWEvent
  regs : List CompReg
  deriving DecidableEq

def RW.empty : RW := ⟨[], []⟩

/-- `rewriter.create<...>` for a non-register op. -/
def mkOp (rw : RW) (kind : String) : RW :=
  { rw with events := rw.events ++ [.created kind] }

/-- `rewriter.create<seq::CompRegOp>`: returns the updated log and the
register's output value. -/
def mkReg (rw : RW) (r : CompReg) : RW × CExpr :=
  ({ rw with events := rw.events ++ [.created "seq.compreg"],
             regs := rw.regs ++ [r] },
   .regE rw.regs.length)

/-! ### Evaluation semantics

Multi-bit values are naturals; 1-bit values are the naturals `0` and `1`.
`|||`, `^^^`, `&&&` are the bitwise operations of `comb.or`, `comb.xor` and
`comb.and`; `comb.add` truncates to the result width; `comb.icmp` produces a
1-bit result; `comb.mux` tests its 1-bit condition against zero. -/

def evalC (env : String → Nat) (st : Nat → Nat) : CExpr → Nat
  | .constE w v => v % 2 ^ w
  | .varE s => env s
  | .regE i => st i
  | .orE a b => evalC env st a ||| evalC env st b
  | .xorE a b => evalC env st a ^^^ evalC env st b
  | .andE a b => evalC env st a &&& evalC env st b
  | .addE w a b => (evalC env st a + evalC env st b) % 2 ^ w
  | .eqE a b => if evalC env st a = evalC env st b then 1 else 0
  | .ultE a b => if evalC env st a < evalC env st b then 1 else 0
  | .muxE c t f => if evalC env st c ≠ 0 then evalC env st t else evalC env st f

/-- Power-on value of register `i` (constants only in these patterns). -/
def regInit (regs : List CompReg) (i : Nat) : Nat :=
  match regs[i]? with
  | some r =>
    match r.powerOn with
    | some e => evalC (fun _ => 0) (fun _ => 0) e
    | none => 0
  | none => 0

/-- One synchronous step of register `i`: a high reset loads the reset value,
otherwise the data input is loaded. -/
def regStepF (regs : List CompReg) (env : String → Nat) (st : Nat → Nat)
    (i : Nat) : Nat :=
  match regs[i]? with
  | some r =>
    match r.resetSig with
    | some rs =>
      if evalC env st rs ≠ 0 then
        match r.resetVal with
        | some rv => evalC env st rv
        | none => 0
      else evalC env st r.input
    | none => evalC env st r.input
  | none => 0

/-- Register trace: state at cycle `t` under the input trace `envT`. -/
def regTrace (regs : List CompReg) (envT : Nat → String → Nat) : Nat → Nat → Nat
  | 0 => regInit regs
  | t + 1 => regStepF regs (envT t) (regTrace regs envT t)

/-! ### The `has_been_reset` lowering

Transcription of `HasBeenResetOpConversion::matchAndRewrite`: two 1-bit
constants, a backedge for the register, `or(reset, reg)`, the `hbr` register
(clocked, unreset, power-on 0), `xor(reset, 1)`, and the replacement
`and(reg, notReset)`. -/

def hbrLower : RW × CExpr :=
  let rw := RW.empty
  let constZero : CExpr := .constE 1 0
  let rw := mkOp rw "hw.constant"
  let constOne : CExpr := .constE 1 1
  let rw := mkOp rw "hw.constant"
  let reg : CExpr := .regE 0
  let orReset : CExpr := .orE (.varE "reset") reg
  let rw := mkOp rw "comb.or"
  let rw := mkOp rw "seq.to_clock"
  let rw := (mkReg rw
    { width := 1, input := orReset, resetSig := none, resetVal := none,
      name := "hbr", powerOn := some constZero }).1
  let notReset : CExpr := .xorE (.varE "reset") constOne
  let rw := mkOp rw "comb.xor"
  let rw := { rw with events := rw.events ++ [.replaced "verif.has_been_reset"] }
  (rw, .andE reg notReset)

/-- Environment trace feeding only the `reset` input. -/
def hbrEnv (resetT : Nat → Nat) : Nat → String → Nat :=
  fun t s => if s = "reset" then resetT t else 0

/-- The `hbr` register's value at cycle `t`. -/
def hbrState (resetT : Nat → Nat) (t : Nat) : Nat :=
  regTrace hbrLower.1.regs (hbrEnv resetT) t 0

/-- The lowered circuit's output at cycle `t`. -/
def hbrOut (resetT : Nat → Nat) (t : Nat) : Nat :=
  evalC (hbrEnv resetT t) (regTrace hbrLower.1.regs (hbrEnv resetT) t) hbrLower.2

/-! ### The assertion patterns

`verif.assert` property shapes are operand trees of LTL operations over
arbitrary 1-bit values.  `boolVal` stands for any `i1` SSA value (matched by
`m_Bool`), `oneConst` for the constant matched by `m_One`. -/

inductive ClockEdge where
  | pos
  | neg
  | both
  deriving DecidableEq

inductive PVal where
  | boolVal (name : String)
  | oneConst
  | clockOp (input : PVal) (edge : ClockEdge) (clk : PVal)
  | disableOp (input : PVal) (cond : PVal)
  | implicationOp (ante conseq : PVal)
  | concatOp (args : List PVal)
  | delayOp (input : PVal) (delay length : Nat)

/-- `m_Bool`: does the value have signless integer type of width 1?  Only
plain values and integer constants are `i1`; every LTL operation result has a
property or sequence type. -/
def PVal.isI1 : PVal → Bool
  | .boolVal _ => true
  | .oneConst => true
  | _ => false

/-- `m_One`: a constant integer of value one. -/
def PVal.isOne : PVal → Bool
  | .oneConst => true
  | _ => false

/-- The matched value as a Comb-level expression. -/
def pvalToExpr : PVal → CExpr
  | .boolVal s => .varE s
  | .oneConst => .constE 1 1
  | _ => .varE "?"

/-- Bindings of the non-overlapping-implication (NOI) pattern
`clock(disable(implication(concat(a, delay(one, n, len)), b), d), clk)`. -/
structure NOIBind where
  a : PVal
  n : Nat
  len : Nat
  b : PVal
  d : PVal
  clk : PVal
  edge : ClockEdge

structure OIBind where
  a : PVal
  b : PVal
  d : PVal
  clk : PVal
  edge : ClockEdge

structure GenBind where
  x : PVal
  d : PVal
  clk : PVal
  edge : ClockEdge

def matchNOI : PVal → Option NOIBind
  | .clockOp (.disableOp (.implicationOp (.concatOp [a, .delayOp di n len]) b) d)
      e clk =>
    if a.isI1 && di.isOne && b.isI1 && d.isI1 && clk.isI1 then
      some ⟨a, n, len, b, d, clk, e⟩
    else none
  | _ => none

def matchOI : PVal → Option OIBind
  | .clockOp (.disableOp (.implicationOp a b) d) e clk =>
    if a.isI1 && b.isI1 && d.isI1 && clk.isI1 then some ⟨a, b, d, clk, e⟩
    else none
  | _ => none

def matchGen : PVal → Option GenBind
  | .clockOp (.disableOp x d) e clk =>
    if x.isI1 && d.isI1 && clk.isI1 then some ⟨x, d, clk, e⟩ else none
  | _ => none

/-- `llvm::Log2_64`: `63 - countLeadingZeros`, which is `⌊log2 n⌋` for
positive `n` and wraps to `2^32 - 1` at zero. -/
def llvmLog2_64 (n : Nat) : Nat :=
  if n = 0 then 2 ^ 32 - 1 else Nat.log2 n

/-- `makeImplication`: `!a || b`, the negation encoded as `xor` with the 1-bit
constant 1. -/
def makeImplication (antecedent consequent : CExpr) (rw : RW) : RW × CExpr :=
  let constOne : CExpr := .constE 1 1
  let rw := mkOp rw "hw.constant"
  let nA : CExpr := .xorE antecedent constOne
  let rw := mkOp rw "comb.xor"
  let rw := mkOp rw "comb.or"
  (rw, .orE nA consequent)

/-- The antecedent pipeline loop of `makeNonOverlappingImplication`:
`for (size_t i = 1; i < delayCycles; ++i)` creating `antecedent_i` registers,
each fed by the previous one and reset by the disable condition. -/
def noiPipeline (disableCond resetVal : CExpr) :
    Nat → RW × CExpr → RW × CExpr
  | 0, acc => acc
  | k + 1, acc =>
    let r := noiPipeline disableCond resetVal k acc
    mkReg r.1
      { width := 1, input := r.2, resetSig := some disableCond,
        resetVal := some resetVal,
        name := "antecedent_" ++ toString (k + 1), powerOn := some resetVal }

/-- `makeNonOverlappingImplication`: delay counter register, antecedent
pipeline, and the final condition
`(count < n) || ((!a_last) || b) || disable`. -/
def makeNOI (antecedent consequent : CExpr) (delayCycles : Nat)
    (disableCond : CExpr) (rw : RW) : RW × CExpr :=
  let delayRegW := llvmLog2_64 delayCycles + 1
  let constZero : CExpr := .constE delayRegW 0
  let rw := mkOp rw "hw.constant"
  let constOneW : CExpr := .constE delayRegW 1
  let rw := mkOp rw "hw.constant"
  let delayReg : CExpr := .regE 0
  let delayInc : CExpr := .addE delayRegW delayReg constOneW
  let rw := mkOp rw "comb.add"
  let delayMax : CExpr := .constE delayRegW delayCycles
  let rw := mkOp rw "hw.constant"
  let delayEqMax : CExpr := .eqE delayReg delayMax
  let rw := mkOp rw "comb.icmp"
  let delayMux : CExpr := .muxE delayEqMax delayMax delayInc
  let rw := mkOp rw "comb.mux"
  let rw := mkOp rw "seq.to_clock"
  let rw := (mkReg rw
    { width := delayRegW, input := delayMux, resetSig := some disableCond,
      resetVal := some constZero, name := "delay_",
      powerOn := some constZero }).1
  let resetVal : CExpr := .constE 1 0
  let rw := mkOp rw "hw.constant"
  let r0 := mkReg rw
    { width := 1, input := antecedent, resetSig := some disableCond,
      resetVal := some resetVal, name := "antecedent_0",
      powerOn := some resetVal }
  let rp := noiPipeline disableCond resetVal (delayCycles - 1) (r0.1, r0.2)
  let rw := rp.1
  let aI := rp.2
  let condMin : CExpr := .ultE delayReg delayMax
  let rw := mkOp rw "comb.icmp"
  let constOneAi : CExpr := .constE 1 1
  let rw := mkOp rw "hw.constant"
  let notAi : CExpr := .xorE aI constOneAi
  let rw := mkOp rw "comb.xor"
  let implAiConsequent : CExpr := .orE notAi consequent
  let rw := mkOp rw "comb.or"
  let condLhs : CExpr := .orE condMin implAiConsequent
  let rw := mkOp rw "comb.or"
  let rw := mkOp rw "comb.or"
  (rw, .orE condLhs disableCond)

/-- `visit(ltl::DisableOp)`: replace the disable with `or(cond, input)`. -/
def visitDisable (cond input : CExpr) (rw : RW) : RW × CExpr :=
  ({ rw with events := rw.events ++ [.replaced "ltl.disable"] },
   .orE cond input)

/-- The data retained from a successful assertion rewrite: the condition of
the generated immediate `sv.assert`, the `sv.always` edge and clock, and the
erased LTL operations. -/
structure LoweredAssert where
  cond : CExpr
  edge : ClockEdge
  clk : CExpr
  deferKind : String
  erased : List String
  deriving DecidableEq

/-- Common tail of `AssertOpConversionPattern::matchAndRewrite`: visit the
disable op, create the `sv.always` wrapping an immediate `sv.assert`, erase
the consumed LTL ops. -/
def finishAssert (d : PVal) (edge : ClockEdge) (clk : PVal)
    (disableInput : CExpr) (rw : RW) (erased : List String) :
    Except String LoweredAssert × RW :=
  let rv := visitDisable (pvalToExpr d) disableInput rw
  let rw := rv.1
  let disableVal := rv.2
  let rw := mkOp rw "sv.always"
  let rw := { rw with events := rw.events ++ [RWEvent.replaced "verif.assert"] }
  let rw := { rw with
    events := rw.events ++ erased.map RWEvent.erasedOp }
  (.ok { cond := disableVal, edge := edge, clk := pvalToExpr clk,
         deferKind := "Immediate", erased := erased }, rw)

/-- `AssertOpConversionPattern::matchAndRewrite`: try NOI (rejecting a
non-zero delay length), then OI, then the generic clocked-and-disabled
property; fail with a diagnostic otherwise. -/
def assertRewrite (p : PVal) : Except String LoweredAssert × RW :=
  let rw0 := RW.empty
  match matchNOI p with
  | some nb =>
    if nb.len ≠ 0 then (.error " Delay must have a length of 0!", rw0)
    else
      let r :=
        makeNOI (pvalToExpr nb.a) (pvalToExpr nb.b) nb.n (pvalToExpr nb.d) rw0
      finishAssert nb.d nb.edge nb.clk r.2 r.1
        ["ltl.clock", "ltl.implication", "ltl.concat", "ltl.delay"]
  | none =>
    match matchOI p with
    | some ob =>
      let r :=
        makeImplication (pvalToExpr ob.a) (pvalToExpr ob.b) rw0
      finishAssert ob.d ob.edge ob.clk r.2 r.1
        ["ltl.clock", "ltl.implication"]
    | none =>
      match matchGen p with
      | some gb =>
        finishAssert gb.d gb.edge gb.clk (pvalToExpr gb.x) rw0 ["ltl.clock"]
      | none => (.error "AssertProperty format is invalid!", rw0)

/-! ### Derived observations and example inputs used by the theorems -/

/-- The registers recorded while walking a body (in walk order). -/
def regOf : HWOp → Option RegInfo
  | .firRegOp r => some r
  | _ => none

def regsOf (m : HWModule) : List RegInfo :=
  m.body.filterMap regOf

def isSortW (w : Nat) : OutLine → Bool
  | .inst _ (.sortI _ w') => w' = w
  | _ => false

def isZeroS (s : Nat) : OutLine → Bool
  | .inst _ (.zeroI s') => s' = s
  | _ => false

def isNextLine : OutLine → Bool
  | .inst _ (.nextI _ _ _) => true
  | _ => false

/-- Number of `sort` lines of a given width in a stream. -/
def countSortW (w : Nat) (out : List OutLine) : Nat :=
  (out.filter (isSortW w)).length

/-- Number of `zero` lines with a given sort id in a stream. -/
def countZeroSid (s : Nat) (out : List OutLine) : Nat :=
  (out.filter (isZeroS s)).length

/-- Number of `next` lines in a stream. -/
def countNext (out : List OutLine) : Nat :=
  (out.filter isNextLine).length

/-- Module with a single 1-bit non-clock input, the smallest input making the
pass print a sort line. -/
def inputOnlyModule : HWModule :=
  { ports := [⟨"a", true, false, 1, 0⟩], body := [] }

/-- Module whose register's `next` operand is a wire aliasing a constant:
`%c = hw.constant`, `%w = hw.wire %c`, `%r = seq.firreg %w`. -/
def wireNextModule : HWModule :=
  { ports := [],
    body := [.constantOp 0 1 1, .wireOp 1 (.opResult 0),
             .firRegOp ⟨2, 1, "r", .opResult 1⟩] }

/-- A module with one self-looping register (its `next` is its own output). -/
def regModule1 : HWModule :=
  { ports := [], body := [.firRegOp ⟨0, 1, "r0", .opResult 0⟩] }

/-- A second module of the same shape, walked after `regModule1`. -/
def regModule2 : HWModule :=
  { ports := [], body := [.firRegOp ⟨1, 1, "r1", .opResult 1⟩] }

/-- The spec's example reset trace `1,1,0,0,1,0`. -/
def hbrExampleReset : Nat → Nat :=
  fun t => [1, 1, 0, 0, 1, 0].getD t 0

/-- NOI-shaped property
`clock(disable(implication(concat(a, delay(one, n, len)), b), d), clk)`. -/
def noiProp (na nb nd nclk : String) (e : ClockEdge) (n len : Nat) : PVal :=
  .clockOp (.disableOp (.implicationOp
    (.concatOp [.boolVal na, .delayOp .oneConst n len]) (.boolVal nb))
    (.boolVal nd)) e (.boolVal nclk)

/-- OI-shaped property `clock(disable(implication(a, b), d), clk)`. -/
def oiProp (na nb nd nclk : String) (e : ClockEdge) : PVal :=
  .clockOp (.disableOp (.implicationOp (.boolVal na) (.boolVal nb))
    (.boolVal nd)) e (.boolVal nclk)

/-! ### A spec-side LID lookup for comparison (claim C6)

The spec's Alias rule reads: follow `alias` to a fixpoint, then look up
`op_lid`; if not found and the value is a block argument, look up
`input_lid[arg_index]`; otherwise undefined.  The following definitions
follow the spec's words (with fuel bounding the chain length); they are
compared against the source-derived `getOpLIDval`. -/

def specResolveAlias (m : List (Nat × Option Nat)) : Nat → Nat → Nat
  | 0, o => o
  | fuel + 1, o =>
    match alookup m o with
    | some (some t) => specResolveAlias m fuel t
    | _ => o

def specLookupLID (st : B2State) (v : BValue) : Option Nat :=
  let d :=
    match v.definingOp with
    | some o => some (specResolveAlias st.opAliasMap st.opAliasMap.length o)
    | none => none
  match d.bind (alookup st.opLIDMap) with
  | some l => some l
  | none =>
    match v with
    | .blockArg idx => alookup st.inputLIDs idx
    | .opResult _ => none

/-- Concrete emission state with a two-step alias chain `2 ↦ 1 ↦ 0` where
only the chain's end has an LID: built by `wire(wire(op))`. -/
def chainState : B2State :=
  { initB2State with
    opLIDMap := [(0, 5)],
    opAliasMap := [(2, some 1), (1, some 0)] }

/-- An alias map is flat when every alias target is itself unaliased (and
non-null). -/
def flatAliasMap (st : B2State) : Prop :=
  ∀ o t, alookup st.opAliasMap o = some t →
    ∃ t', t = some t' ∧ alookup st.opAliasMap t' = none

/-! ### Emission-stream invariants -/

/-- Invariant carried through the whole BTOR2 emission: the numbered lines
are exactly `1, 2, …, lid - 1`; the dedup tables store line ids below the
counter; sort line ids are distinct per width; while the counter has not
exhausted the `size_t` range, sort lines are in bijection with the sort
table and zero lines are unique per sort id; and every sort line carries the
`bitvecStr` keyword. -/
structure B2Inv (st : B2State) : Prop where
  lids : instLids st.output = List.range' 1 (st.lid - 1)
  pos : 1 ≤ st.lid
  sortLt : ∀ w l, alookup st.sortToLIDMap w = some l → l < st.lid
  constLt : ∀ k l, alookupP st.constToLIDMap k = some l → l < st.lid
  sortInj : ∀ w w' l, alookup st.sortToLIDMap w = some l →
    alookup st.sortToLIDMap w' = some l → w = w'
  sortCount : st.lid ≤ noLID → ∀ w,
    countSortW w st.output = if (alookup st.sortToLIDMap w).isSome then 1 else 0
  zeroCount : st.lid ≤ noLID → ∀ s,
    countZeroSid s st.output ≤ 1 ∧
    (countZeroSid s st.output = 1 →
      ∃ w, alookup st.sortToLIDMap w = some s ∧
        (alookupP st.constToLIDMap (0, w)).isSome)
  kw : ∀ l k w, OutLine.inst l (.sortI k w) ∈ st.output → k = bitvecStr

/-- Invariant for a module without a `reset` input: the reset LID is still
the sentinel and every `ite` line printed it as its condition. -/
def resetSentinelInv (st : B2State) : Prop :=
  st.resetLID = noLID ∧
  ∀ l sid c t f, OutLine.inst l (.iteI sid c t f) ∈ st.output → c = noLID

/-- A flat alias state: a single wire aliasing an op that has an LID. -/
def flatState : B2State :=
  { initB2State with
    opLIDMap := [(0, 5)],
    opAliasMap := [(1, some 0)] }

/-- The delay-counter register the NOI synthesis creates (claim C2): width
`⌊log2 n⌋ + 1`, next value `count == n ? n : count + 1`, synchronously reset
to zero by the disable condition. -/
def noiDelayWidth (n : Nat) : Nat := Nat.log2 n + 1

def noiDelayReg (n : Nat) : CompReg :=
  { width := noiDelayWidth n,
    input := CExpr.muxE
      (.eqE (.regE 0) (.constE (noiDelayWidth n) n))
      (.constE (noiDelayWidth n) n)
      (.addE (noiDelayWidth n) (.regE 0) (.constE (noiDelayWidth n) 1)),
    resetSig := some (.varE "d"),
    resetVal := some (.constE (noiDelayWidth n) 0),
    name := "delay_", powerOn := some (.constE (noiDelayWidth n) 0) }

/-- The `i`-th antecedent pipeline register of the NOI synthesis. -/
def noiPipeReg (i : Nat) : CompReg :=
  { width := 1, input := if i = 0 then CExpr.varE "a" else CExpr.regE i,
    resetSig := some (.varE "d"), resetVal := some (.constE 1 0),
    name := "antecedent_" ++ toString i, powerOn := some (.constE 1 0) }

/-! ## Helper lemmas -/

theorem foldl_pres {α σ : Type} {P : σ → Prop} {f : σ → α → σ}
    (h : ∀ s a, P s → P (f s a)) : ∀ (l : List α) (s : σ), P s → P (l.foldl f s)
  | [], _, hs => hs
  | a :: l, s, hs => foldl_pres h l (f s a) (h s a hs)

theorem instLids_append (a b : List OutLine) :
    instLids (a ++ b) = instLids a ++ instLids b :=
  List.filterMap_append a b _

theorem instLids_inst (l : Nat) (i : Instr) : instLids [OutLine.inst l i] = [l] := rfl

theorem countSortW_append (w : Nat) (a b : List OutLine) :
    countSortW w (a ++ b) = countSortW w a + countSortW w b := by
  simp [countSortW, List.filter_append]

theorem countZeroSid_append (s : Nat) (a b : List OutLine) :
    countZeroSid s (a ++ b) = countZeroSid s a + countZeroSid s b := by
  simp [countZeroSid, List.filter_append]

theorem countNext_append (a b : List OutLine) :
    countNext (a ++ b) = countNext a + countNext b := by
  simp [countNext, List.filter_append]

theorem lids_emit {st : B2State}
    (hl : instLids st.output = List.range' 1 (st.lid - 1)) (hp : 1 ≤ st.lid)
    (i : Instr) :
    instLids (st.output ++ [OutLine.inst st.lid i]) =
      List.range' 1 (st.lid + 1 - 1) := by
  rw [instLids_append, hl, instLids_inst]
  have h1 : st.lid + 1 - 1 = (st.lid - 1) + 1 := by omega
  have h2 : 1 + 1 * (st.lid - 1) = st.lid := by omega
  rw [h1, List.range'_concat, h2]

theorem b2inv_congr {st st' : B2State} (h : B2Inv st)
    (hl : st'.lid = st.lid) (ho : st'.output = st.output)
    (hs : st'.sortToLIDMap = st.sortToLIDMap)
    (hc : st'.constToLIDMap = st.constToLIDMap) : B2Inv st' := by
  refine ⟨?_, ?_, ?_, ?_, ?_, ?_, ?_, ?_⟩ <;>
    simp only [hl, ho, hs, hc]
  · exact h.lids
  · exact h.pos
  · exact h.sortLt
  · exact h.constLt
  · exact h.sortInj
  · exact h.sortCount
  · exact h.zeroCount
  · exact h.kw

theorem countSortW_single_other (w : Nat) (l : Nat) (i : Instr)
    (hns : ∀ k w', i ≠ .sortI k w') :
    countSortW w [OutLine.inst l i] = 0 := by
  cases i with
  | sortI k w' => exact absurd rfl (hns k w')
  | _ => rfl

theorem countZeroSid_single_other (s : Nat) (l : Nat) (i : Instr)
    (hnz : ∀ s', i ≠ .zeroI s') :
    countZeroSid s [OutLine.inst l i] = 0 := by
  cases i with
  | zeroI s' => exact absurd rfl (hnz s')
  | _ => rfl

theorem b2inv_emitLine {st : B2State} (h : B2Inv st) (i : Instr)
    (hns : ∀ k w, i ≠ .sortI k w) (hnz : ∀ s, i ≠ .zeroI s) :
    B2Inv (emitLine st i) := by
  obtain ⟨l1, l2, l3, l4, l5, l6, l7, l8⟩ := h
  have hlid : (emitLine st i).lid = st.lid + 1 := rfl
  have hout : (emitLine st i).output = st.output ++ [OutLine.inst st.lid i] := rfl
  have hm1 : (emitLine st i).sortToLIDMap = st.sortToLIDMap := rfl
  have hm2 : (emitLine st i).constToLIDMap = st.constToLIDMap := rfl
  refine ⟨lids_emit l1 l2 i, by simp [emitLine], ?_, ?_, l5, ?_, ?_, ?_⟩
  · intro w l hw
    exact Nat.lt_succ_of_lt (l3 w l hw)
  · intro k l hk
    exact Nat.lt_succ_of_lt (l4 k l hk)
  · intro hle w
    have hle' : st.lid ≤ noLID := by omega
    rw [hout, hm1, countSortW_append, countSortW_single_other w st.lid i hns]
    simpa using l6 hle' w
  · intro hle s
    have hle' : st.lid ≤ noLID := by omega
    rw [hout, hm1, hm2, countZeroSid_append,
      countZeroSid_single_other s st.lid i hnz]
    simpa using l7 hle' s
  · intro l k w hmem
    rcases List.mem_append.mp hmem with hml | hmr
    · exact l8 l k w hml
    · simp at hmr
      rcases hmr with ⟨-, hi⟩
      exact absurd hi.symm (hns k w)

theorem alookup_isSome_mono {β : Type} (e : Nat × β) (m : List (Nat × β)) (a : Nat)
    (h : (alookup m a).isSome) : (alookup (e :: m) a).isSome := by
  obtain ⟨k, v⟩ := e
  rw [alookup_cons]
  split <;> simp_all

theorem alookupP_cons {β : Type} (k : Int × Nat) (v : β)
    (es : List ((Int × Nat) × β)) (a : Int × Nat) :
    alookupP ((k, v) :: es) a = if a = k then some v else alookupP es a := rfl

theorem b2inv_genSort {st : B2State} (h : B2Inv st) (w : Nat) :
    B2Inv (genSort st bitvecStr w) := by
  obtain ⟨l1, l2, l3, l4, l5, l6, l7, l8⟩ := h
  by_cases hg : (alookup st.sortToLIDMap w).getD noLID ≠ noLID
  · rw [genSort, if_pos hg]; exact ⟨l1, l2, l3, l4, l5, l6, l7, l8⟩
  · rw [genSort, if_neg hg]
    refine ⟨?_, ?_, ?_, ?_, ?_, ?_, ?_, ?_⟩
    · exact lids_emit l1 l2 _
    · simp [emitLine]
    · intro w' l hw'
      simp only [emitLine] at hw' ⊢
      rw [alookup_cons] at hw'
      split at hw'
      · cases hw'; omega
      · exact Nat.lt_succ_of_lt (l3 w' l hw')
    · intro k l hk
      simp only [emitLine] at hk ⊢
      exact Nat.lt_succ_of_lt (l4 k l hk)
    · intro w1 w2 l hw1 hw2
      simp only [emitLine] at hw1 hw2
      rw [alookup_cons] at hw1 hw2
      split at hw1 <;> split at hw2
      · omega
      · cases hw1
        have := l3 w2 st.lid hw2
        omega
      · cases hw2
        have := l3 w1 st.lid hw1
        omega
      · exact l5 w1 w2 l hw1 hw2
    · intro hle w'
      simp only [emitLine] at hle ⊢
      have hle' : st.lid ≤ noLID := by omega
      have hnone : alookup st.sortToLIDMap w = none := by
        rcases hx : alookup st.sortToLIDMap w with _ | l
        · rfl
        · rw [hx] at hg
          simp at hg
          have := l3 w l hx
          omega
      rw [countSortW_append]
      by_cases hww : w' = w
      · subst hww
        have h0 : countSortW w' st.output = 0 := by
          have := l6 hle' w'
          rw [hnone] at this
          simpa using this
        have h1 : countSortW w' [OutLine.inst st.lid (Instr.sortI bitvecStr w')] = 1 := by
          simp [countSortW, isSortW, List.filter]
        rw [h0, h1]
        simp [alookup_cons]
      · have hne : isSortW w' (OutLine.inst st.lid (Instr.sortI bitvecStr w)) = false := by
          simp [isSortW]
          exact fun hc => hww hc.symm
        have h1 : countSortW w' [OutLine.inst st.lid (Instr.sortI bitvecStr w)] = 0 := by
          simp [countSortW, List.filter, hne]
        rw [h1, Nat.add_zero, l6 hle' w']
        simp [alookup_cons, hww]
    · intro hle s
      simp only [emitLine] at hle ⊢
      have hle' : st.lid ≤ noLID := by omega
      have hz :
          countZeroSid s (st.output ++ [OutLine.inst st.lid (Instr.sortI bitvecStr w)]) =
            countZeroSid s st.output := by
        rw [countZeroSid_append,
          countZeroSid_single_other s st.lid _ (by intro s'; simp), Nat.add_zero]
      rw [hz]
      obtain ⟨hz1, hz2⟩ := l7 hle' s
      refine ⟨hz1, fun h1 => ?_⟩
      obtain ⟨w', hw', hc'⟩ := hz2 h1
      refine ⟨w', ?_, hc'⟩
      rw [alookup_cons]
      by_cases hww : w' = w
      · subst hww
        have hlt := l3 w' s hw'
        rw [hw'] at hg
        simp at hg
        exact absurd hg (by omega)
      · rw [if_neg hww]
        exact hw'
    · intro l k w' hmem
      simp only [emitLine] at hmem
      rcases List.mem_append.mp hmem with hml | hmr
      · exact l8 l k w' hml
      · simp at hmr
        exact hmr.2.1

theorem b2inv_setOpLID {st : B2State} (h : B2Inv st) (op : Option Nat) :
    B2Inv (setOpLID st op) := by
  cases op with
  | none => exact h
  | some o => exact b2inv_congr h rfl rfl rfl rfl

theorem b2inv_genZero {st : B2State} (h : B2Inv st) (w : Nat)
    (hw : (alookup st.sortToLIDMap w).isSome) :
    B2Inv (genZero st w) := by
  obtain ⟨l1, l2, l3, l4, l5, l6, l7, l8⟩ := h
  by_cases hg : (alookupP st.constToLIDMap (0, w)).getD noLID ≠ noLID
  · rw [genZero, if_pos hg]; exact ⟨l1, l2, l3, l4, l5, l6, l7, l8⟩
  · rw [genZero, if_neg hg]
    obtain ⟨s0, hs0⟩ := Option.isSome_iff_exists.mp hw
    refine ⟨?_, ?_, ?_, ?_, ?_, ?_, ?_, ?_⟩
    · exact lids_emit l1 l2 _
    · simp [emitLine]
    · intro w' l hw'
      simp only [emitLine] at hw' ⊢
      exact Nat.lt_succ_of_lt (l3 w' l hw')
    · intro k l hk
      simp only [emitLine] at hk ⊢
      rw [alookupP_cons] at hk
      split at hk
      · cases hk; omega
      · exact Nat.lt_succ_of_lt (l4 k l hk)
    · intro w1 w2 l hw1 hw2
      simp only [emitLine] at hw1 hw2
      exact l5 w1 w2 l hw1 hw2
    · intro hle w'
      simp only [emitLine] at hle ⊢
      have hle' : st.lid ≤ noLID := by omega
      rw [countSortW_append,
        countSortW_single_other w' st.lid _ (by intro k w''; simp), Nat.add_zero]
      exact l6 hle' w'
    · intro hle s
      simp only [emitLine] at hle ⊢
      have hle' : st.lid ≤ noLID := by omega
      have hcnone : alookupP st.constToLIDMap (0, w) = none := by
        rcases hx : alookupP st.constToLIDMap (0, w) with _ | l
        · rfl
        · rw [hx] at hg
          simp at hg
          have := l4 (0, w) l hx
          omega
      rw [countZeroSid_append, hs0]
      simp only [Option.getD_some]
      by_cases hss : s = s0
      · subst hss
        have h0 : countZeroSid s st.output = 0 := by
          by_contra hne
          have h1 : countZeroSid s st.output = 1 := by
            have := (l7 hle' s).1
            omega
          obtain ⟨w', hw', hc'⟩ := (l7 hle' s).2 h1
          have hw'w : w' = w := l5 w' w s hw' hs0
          rw [hw'w, hcnone] at hc'
          simp at hc'
        have h1 : countZeroSid s [OutLine.inst st.lid (Instr.zeroI s)] = 1 := by
          simp [countZeroSid, isZeroS, List.filter]
        rw [h0, h1]
        refine ⟨by omega, fun _ => ⟨w, hs0, ?_⟩⟩
        rw [alookupP_cons, if_pos rfl]
        simp
      · have h1 : countZeroSid s [OutLine.inst st.lid (Instr.zeroI s0)] = 0 := by
          have : isZeroS s (OutLine.inst st.lid (Instr.zeroI s0)) = false := by
            simp [isZeroS]
            exact fun hc => hss hc.symm
          simp [countZeroSid, List.filter, this]
        rw [h1, Nat.add_zero]
        obtain ⟨hz1, hz2⟩ := l7 hle' s
        refine ⟨hz1, fun hcc => ?_⟩
        obtain ⟨w', hw', hc'⟩ := hz2 hcc
        refine ⟨w', hw', ?_⟩
        rw [alookupP_cons]
        split <;> simp_all
    · intro l k w' hmem
      simp only [emitLine] at hmem
      rcases List.mem_append.mp hmem with hml | hmr
      · exact l8 l k w' hml
      · simp at hmr

theorem genSort_isSome (st : B2State) (ty : String) (w : Nat) :
    (alookup (genSort st ty w).sortToLIDMap w).isSome := by
  by_cases hg : (alookup st.sortToLIDMap w).getD noLID ≠ noLID
  · rw [genSort, if_pos hg]
    rcases hx : alookup st.sortToLIDMap w with _ | l
    · rw [hx] at hg; simp at hg
    · simp
  · rw [genSort, if_neg hg]
    show (alookup ((w, st.lid) :: st.sortToLIDMap) w).isSome
    rw [alookup_cons, if_pos rfl]
    simp

theorem b2inv_requireSort {st : B2State} (h : B2Inv st) (w : Nat) :
    B2Inv (requireSort st w) :=
  b2inv_genSort h w

theorem b2inv_genInput {st : B2State} (h : B2Inv st) (w : Nat) (n : String) :
    B2Inv (genInput st w n) :=
  b2inv_emitLine h _ (by intro k w'; simp) (by intro s; simp)

theorem b2inv_genConst {st : B2State} (h : B2Inv st) (v : Int) (w : Nat) (op : Nat) :
    B2Inv (genConst st v w op) :=
  b2inv_emitLine (b2inv_setOpLID h (some op)) _
    (by intro k w'; simp) (by intro s; simp)

theorem b2inv_genBinOp {st : B2State} (h : B2Inv st) (inst : String) (binop : Nat)
    (op1 op2 : BValue) (w : Nat) : B2Inv (genBinOp st inst binop op1 op2 w) :=
  b2inv_emitLine (b2inv_setOpLID h (some binop)) _
    (by intro k w'; simp) (by intro s; simp)

theorem b2inv_genState {st : B2State} (h : B2Inv st) (srcop : Nat) (w : Nat)
    (n : String) : B2Inv (genState st srcop w n) :=
  b2inv_emitLine (b2inv_setOpLID h (some srcop)) _
    (by intro k w'; simp) (by intro s; simp)

theorem b2inv_genIteLIDs {st : B2State} (h : B2Inv st) (srcop : Option Nat)
    (c t f w : Nat) : B2Inv (genIteLIDs st srcop c t f w) :=
  b2inv_emitLine (b2inv_setOpLID h srcop) _
    (by intro k w'; simp) (by intro s; simp)

theorem b2inv_genNext {st : B2State} (h : B2Inv st) (next : Option Nat)
    (reg : Nat) (w : Nat) : B2Inv (genNext st next reg w) :=
  b2inv_emitLine h _ (by intro k w'; simp) (by intro s; simp)

theorem b2inv_visitPort {st : B2State} (h : B2Inv st) (p : PortInfo) :
    B2Inv (visitPort st p) := by
  unfold visitPort
  split
  · apply b2inv_genInput
    split
    · exact b2inv_congr (b2inv_congr (b2inv_requireSort h p.width) rfl rfl rfl rfl)
        rfl rfl rfl rfl
    · exact b2inv_congr (b2inv_requireSort h p.width) rfl rfl rfl rfl
  · exact h

theorem b2inv_visitOp {st : B2State} (h : B2Inv st) (op : HWOp) :
    B2Inv (visitOp st op) := by
  cases op with
  | constantOp opId w v => exact b2inv_genConst (b2inv_requireSort h w) v w opId
  | wireOp opId operand => exact b2inv_congr h rfl rfl rfl rfl
  | binOp opId inst w op1 op2 =>
    exact b2inv_genBinOp (b2inv_requireSort h w) inst opId op1 op2 w
  | firRegOp r =>
    exact b2inv_congr
      (b2inv_genState (b2inv_requireSort h r.width) r.opId r.width r.name)
      rfl rfl rfl rfl
  | outputOp => exact h
  | otherOp => exact h

theorem genSort_sortMap_pres (st : B2State) (ty : String) (w w' : Nat)
    (hw : (alookup st.sortToLIDMap w').isSome) :
    (alookup (genSort st ty w).sortToLIDMap w').isSome := by
  by_cases hg : (alookup st.sortToLIDMap w).getD noLID ≠ noLID
  · rw [genSort, if_pos hg]; exact hw
  · rw [genSort, if_neg hg]
    exact alookup_isSome_mono _ _ _ hw

theorem b2inv_transitionStep {st : B2State} (h : B2Inv st) (r : RegInfo) :
    B2Inv (transitionStep st r) := by
  unfold transitionStep
  have h1 := b2inv_genSort h r.width
  have hsome := genSort_isSome st bitvecStr r.width
  have h2 := b2inv_genZero h1 r.width hsome
  have hsome2 : (alookup (genZero (genSort st bitvecStr r.width) r.width).sortToLIDMap
      r.width).isSome := by
    unfold genZero
    split
    · exact hsome
    · exact hsome
  exact b2inv_genNext (b2inv_genIteLIDs h2 _ _ _ _ _) _ _ _

theorem b2inv_banner {st : B2State} (h : B2Inv st) :
    B2Inv { st with output := st.output ++ [OutLine.banner] } := by
  obtain ⟨l1, l2, l3, l4, l5, l6, l7, l8⟩ := h
  refine ⟨?_, l2, l3, l4, l5, ?_, ?_, ?_⟩
  · show instLids (st.output ++ [OutLine.banner]) = _
    rw [instLids_append, l1]
    simp [instLids]
  · intro hle w
    show countSortW w (st.output ++ [OutLine.banner]) = _
    rw [countSortW_append]
    have : countSortW w [OutLine.banner] = 0 := rfl
    rw [this, Nat.add_zero]
    exact l6 hle w
  · intro hle s
    show countZeroSid s (st.output ++ [OutLine.banner]) ≤ 1 ∧ _
    rw [countZeroSid_append]
    have : countZeroSid s [OutLine.banner] = 0 := rfl
    rw [this, Nat.add_zero]
    exact l7 hle s
  · intro l k w hmem
    rcases List.mem_append.mp hmem with hml | hmr
    · exact l8 l k w hml
    · simp at hmr

theorem b2inv_runModule {st : B2State} (h : B2Inv st) (m : HWModule) :
    B2Inv (runModule st m) := by
  unfold runModule
  exact b2inv_banner
    (foldl_pres (P := B2Inv) (fun s r hs => b2inv_transitionStep hs r) _ _
      (foldl_pres (P := B2Inv) (fun s op hs => b2inv_visitOp hs op) _ _
        (foldl_pres (P := B2Inv) (fun s p hs => b2inv_visitPort hs p) _ _ h)))

theorem b2inv_init : B2Inv initB2State := by
  refine ⟨rfl, le_refl 1, ?_, ?_, ?_, ?_, ?_, ?_⟩
  · intro w l hw; simp [initB2State, alookup] at hw
  · intro k l hk; simp [initB2State, alookupP] at hk
  · intro w w' l hw hw'; simp [initB2State, alookup] at hw
  · intro _ w; rfl
  · intro _ s; exact ⟨Nat.zero_le 1, by intro hc; simp [initB2State, countZeroSid, List.filter] at hc⟩
  · intro l k w hmem; simp [initB2State] at hmem

theorem b2inv_runPass (ms : List HWModule) : B2Inv (runPass ms) :=
  foldl_pres (P := B2Inv) (fun s m hs => b2inv_runModule hs m) ms initB2State
    b2inv_init

theorem foldl_pres_mem {α σ : Type} {P : σ → Prop} {f : σ → α → σ} :
    ∀ (l : List α), (∀ s a, a ∈ l → P s → P (f s a)) →
      ∀ s, P s → P (l.foldl f s)
  | [], _, _, hs => hs
  | a :: l, h, s, hs =>
    foldl_pres_mem l (fun s' a' ha' => h s' a' (List.mem_cons_of_mem a ha'))
      (f s a) (h s a (List.mem_cons_self a l) hs)

theorem rsi_emitLine {st : B2State} (h : resetSentinelInv st) (i : Instr)
    (hni : ∀ sid c t f, i = Instr.iteI sid c t f → c = noLID) :
    resetSentinelInv (emitLine st i) := by
  obtain ⟨h1, h2⟩ := h
  refine ⟨h1, ?_⟩
  intro l sid c t f hmem
  rcases List.mem_append.mp hmem with hml | hmr
  · exact h2 l sid c t f hml
  · simp at hmr
    exact hni sid c t f hmr.2.symm

theorem rsi_genSort {st : B2State} (h : resetSentinelInv st) (ty : String)
    (w : Nat) : resetSentinelInv (genSort st ty w) := by
  unfold genSort
  split
  · exact h
  · exact rsi_emitLine ⟨h.1, h.2⟩ _ (by intro sid c t f hc; cases hc)

theorem rsi_genZero {st : B2State} (h : resetSentinelInv st) (w : Nat) :
    resetSentinelInv (genZero st w) := by
  unfold genZero
  split
  · exact h
  · exact rsi_emitLine ⟨h.1, h.2⟩ _ (by intro sid c t f hc; cases hc)

theorem rsi_setOpLID {st : B2State} (h : resetSentinelInv st) (op : Option Nat) :
    resetSentinelInv (setOpLID st op) := by
  cases op with
  | none => exact h
  | some o => exact ⟨h.1, h.2⟩

theorem rsi_genInput {st : B2State} (h : resetSentinelInv st) (w : Nat)
    (n : String) : resetSentinelInv (genInput st w n) := by
  unfold genInput
  exact rsi_emitLine h _ (by intro sid c t f hc; cases hc)

theorem rsi_genConst {st : B2State} (h : resetSentinelInv st) (v : Int)
    (w : Nat) (op : Nat) : resetSentinelInv (genConst st v w op) := by
  unfold genConst
  exact rsi_emitLine (rsi_setOpLID h (some op)) _
    (by intro sid c t f hc; cases hc)

theorem rsi_genBinOp {st : B2State} (h : resetSentinelInv st) (inst : String)
    (binop : Nat) (op1 op2 : BValue) (w : Nat) :
    resetSentinelInv (genBinOp st inst binop op1 op2 w) := by
  unfold genBinOp
  exact rsi_emitLine (rsi_setOpLID h (some binop)) _
    (by intro sid c t f hc; cases hc)

theorem rsi_genState {st : B2State} (h : resetSentinelInv st) (srcop : Nat)
    (w : Nat) (n : String) : resetSentinelInv (genState st srcop w n) := by
  unfold genState
  exact rsi_emitLine (rsi_setOpLID h (some srcop)) _
    (by intro sid c t f hc; cases hc)

theorem rsi_genIteLIDs {st : B2State} (h : resetSentinelInv st)
    (srcop : Option Nat) (c t f w : Nat) (hc : c = noLID) :
    resetSentinelInv (genIteLIDs st srcop c t f w) := by
  unfold genIteLIDs
  refine rsi_emitLine (rsi_setOpLID h srcop) _ ?_
  intro sid' c' t' f' hcq
  injection hcq with e1 e2 e3 e4
  rw [← e2]
  exact hc

theorem rsi_genNext {st : B2State} (h : resetSentinelInv st)
    (next : Option Nat) (reg : Nat) (w : Nat) :
    resetSentinelInv (genNext st next reg w) := by
  unfold genNext
  exact rsi_emitLine h _ (by intro sid c t f hc; cases hc)

theorem rsi_visitPort {st : B2State} (h : resetSentinelInv st) (p : PortInfo)
    (hp : p.isInput = true → p.name ≠ resetStr) :
    resetSentinelInv (visitPort st p) := by
  unfold visitPort
  split
  · rename_i hcond
    have hin : p.isInput = true := by
      cases hpi : p.isInput
      · rw [hpi] at hcond; simp at hcond
      · rfl
    simp only [if_neg (hp hin)]
    have hs1 := rsi_genSort h bitvecStr p.width
    exact rsi_genInput ⟨hs1.1, hs1.2⟩ p.width p.name
  · exact h

theorem rsi_visitOp {st : B2State} (h : resetSentinelInv st) (op : HWOp) :
    resetSentinelInv (visitOp st op) := by
  cases op with
  | constantOp opId w v => exact rsi_genConst (rsi_genSort h bitvecStr w) v w opId
  | wireOp opId operand => exact ⟨h.1, h.2⟩
  | binOp opId inst w op1 op2 =>
    exact rsi_genBinOp (rsi_genSort h bitvecStr w) inst opId op1 op2 w
  | firRegOp r =>
    have hs2 := rsi_genState (rsi_genSort h bitvecStr r.width) r.opId r.width r.name
    exact ⟨hs2.1, hs2.2⟩
  | outputOp => exact h
  | otherOp => exact h

theorem genSort_resetLID (st : B2State) (ty : String) (w : Nat) :
    (genSort st ty w).resetLID = st.resetLID := by
  unfold genSort; split <;> rfl

theorem genZero_resetLID (st : B2State) (w : Nat) :
    (genZero st w).resetLID = st.resetLID := by
  unfold genZero; split <;> rfl

theorem rsi_transitionStep {st : B2State} (h : resetSentinelInv st)
    (r : RegInfo) : resetSentinelInv (transitionStep st r) := by
  unfold transitionStep
  have hs1 := rsi_genSort h bitvecStr r.width
  have hs2 := rsi_genZero hs1 r.width
  have hrl : (genZero (genSort st bitvecStr r.width) r.width).resetLID = noLID := by
    rw [genZero_resetLID, genSort_resetLID]
    exact h.1
  exact rsi_genNext (rsi_genIteLIDs hs2 _ _ _ _ _ hrl) _ _ _

theorem rsi_runModule {st : B2State} (h : resetSentinelInv st) (m : HWModule)
    (hp : ∀ p ∈ m.ports, p.isInput = true → p.name ≠ resetStr) :
    resetSentinelInv (runModule st m) := by
  unfold runModule
  have h1 : resetSentinelInv (m.ports.foldl visitPort st) :=
    foldl_pres_mem (P := resetSentinelInv) m.ports
      (fun s p hmem hs => rsi_visitPort hs p (hp p hmem)) st h
  have h2 := foldl_pres (P := resetSentinelInv)
    (fun s op hs => rsi_visitOp hs op) m.body (m.ports.foldl visitPort st) h1
  have h3 := foldl_pres (P := resetSentinelInv)
    (fun s r hs => rsi_transitionStep hs r)
    (m.body.foldl visitOp (m.ports.foldl visitPort st)).regOps
    (m.body.foldl visitOp (m.ports.foldl visitPort st)) h2
  refine ⟨h3.1, ?_⟩
  intro l sid c t f hmem
  rcases List.mem_append.mp hmem with hml | hmr
  · exact h3.2 l sid c t f hml
  · simp at hmr

/-! ## Claim theorems -/

/-- Claim C7: in every BTOR2 stream the pass produces, the leading integers of
the numbered lines are exactly the consecutive sequence `1, 2, …, lid - 1`:
they are strictly increasing, start at 1, each emitted line consumes exactly
one counter value, no line is retracted, and no LID is reused. -/
theorem monotonicLids_C7 (ms : List HWModule) :
    instLids (runPass ms).output = List.range' 1 ((runPass ms).lid - 1) ∧
    List.Pairwise (· < ·) (instLids (runPass ms).output) ∧
    (instLids (runPass ms).output ≠ [] →
      List.head? (instLids (runPass ms).output) = some 1) := by
  have h := b2inv_runPass ms
  refine ⟨h.lids, ?_, ?_⟩
  · rw [h.lids]
    exact List.pairwise_lt_range' 1 ((runPass ms).lid - 1)
  · intro hne
    rw [h.lids] at hne ⊢
    rcases hn : (runPass ms).lid - 1 with _ | k
    · rw [hn] at hne; simp at hne
    · rw [List.range'_succ]
      rfl

/-- Witness for C7 at the single-input module: the stream is non-empty and
its first LID is 1. -/
theorem monotonicLids_C7_witness :
    instLids (runPass [inputOnlyModule]).output ≠ [] ∧
    List.head? (instLids (runPass [inputOnlyModule]).output) = some 1 :=
  ⟨by decide, (monotonicLids_C7 [inputOnlyModule]).2.2 (by decide)⟩

/-- Claim C1 (code bug): every sort line the pass prints uses the keyword
stored in `bitvecStr`, and that keyword is the literal string `"bitvecStr"`,
not `"bitvec"`; on a module with a single 1-bit input the first printed line
is `1 sort bitvecStr 1`. -/
theorem sortKeyword_C1 :
    (∀ ms l k w, OutLine.inst l (Instr.sortI k w) ∈ (runPass ms).output →
      k = bitvecStr) ∧
    (runPass [inputOnlyModule]).output =
      [OutLine.inst 1 (Instr.sortI "bitvecStr" 1),
       OutLine.inst 2 (Instr.inputI 1 "a"), OutLine.banner] ∧
    bitvecStr ≠ "bitvec" :=
  ⟨fun ms l k w hm => (b2inv_runPass ms).kw l k w hm, by decide, by decide⟩

/-- Witness for C1: the sort line of the single-input module, with its
hypothesis discharged at the concrete stream. -/
theorem sortKeyword_C1_witness :
    OutLine.inst 1 (Instr.sortI "bitvecStr" 1) ∈ (runPass [inputOnlyModule]).output ∧
    "bitvecStr" = bitvecStr :=
  ⟨by decide, sortKeyword_C1.1 [inputOnlyModule] 1 "bitvecStr" 1 (by decide)⟩

/-- Claim C9: on a module with no input port named `reset`, the reset LID
keeps the sentinel `noLID = 2^64 - 1`, every `ite` line of the emitted stream
prints the sentinel as its condition LID, and (as long as the `size_t`
counter is not exhausted) the sentinel is not the LID of any line of the
stream. -/
theorem resetSentinel_C9 (m : HWModule)
    (hp : ∀ p ∈ m.ports, p.isInput = true → p.name ≠ resetStr) :
    (runPass [m]).resetLID = noLID ∧
    (∀ l sid c t f, OutLine.inst l (Instr.iteI sid c t f) ∈ (runPass [m]).output →
      c = noLID) ∧
    ((runPass [m]).lid ≤ noLID → noLID ∉ instLids (runPass [m]).output) := by
  have hinit : resetSentinelInv initB2State := by
    refine ⟨rfl, ?_⟩
    intro l sid c t f hmem
    simp [initB2State] at hmem
  have h : resetSentinelInv (runPass [m]) := by
    show resetSentinelInv (runModule initB2State m)
    exact rsi_runModule hinit m hp
  refine ⟨h.1, h.2, ?_⟩
  intro hle hmem
  rw [(b2inv_runPass [m]).lids] at hmem
  rw [List.mem_range'] at hmem
  obtain ⟨i, hi, heq⟩ := hmem
  omega

/-- Witness for C9 at the wire-next module (it has no ports at all): the
sentinel reset LID is printed as the `ite` condition on line 5. -/
theorem resetSentinel_C9_witness :
    (runPass [wireNextModule]).resetLID = noLID ∧
    OutLine.inst 5 (Instr.iteI 1 noLID 4 2) ∈ (runPass [wireNextModule]).output ∧
    noLID ∉ instLids (runPass [wireNextModule]).output := by
  have h := resetSentinel_C9 wireNextModule (by intro p hp; simp [wireNextModule] at hp)
  exact ⟨h.1, by decide, h.2.2 (by decide)⟩

theorem setOpLID_sortMap (st : B2State) (op : Option Nat) :
    (setOpLID st op).sortToLIDMap = st.sortToLIDMap := by
  cases op <;> rfl

theorem setOpLID_constMap (st : B2State) (op : Option Nat) :
    (setOpLID st op).constToLIDMap = st.constToLIDMap := by
  cases op <;> rfl

theorem setOpLID_lid (st : B2State) (op : Option Nat) :
    (setOpLID st op).lid = st.lid := by
  cases op <;> rfl

theorem setOpLID_output (st : B2State) (op : Option Nat) :
    (setOpLID st op).output = st.output := by
  cases op <;> rfl

theorem setOpLID_resetLID (st : B2State) (op : Option Nat) :
    (setOpLID st op).resetLID = st.resetLID := by
  cases op <;> rfl

theorem setOpLID_aliasMap (st : B2State) (op : Option Nat) :
    (setOpLID st op).opAliasMap = st.opAliasMap := by
  cases op <;> rfl

theorem genSort_aliasMap (st : B2State) (ty : String) (w : Nat) :
    (genSort st ty w).opAliasMap = st.opAliasMap := by
  unfold genSort; split <;> rfl

theorem genZero_aliasMap (st : B2State) (w : Nat) :
    (genZero st w).opAliasMap = st.opAliasMap := by
  unfold genZero; split <;> rfl

theorem genSort_opLIDMap (st : B2State) (ty : String) (w : Nat) :
    (genSort st ty w).opLIDMap = st.opLIDMap := by
  unfold genSort; split <;> rfl

theorem genZero_opLIDMap (st : B2State) (w : Nat) :
    (genZero st w).opLIDMap = st.opLIDMap := by
  unfold genZero; split <;> rfl

/-- Claim C6 counterexample: on the alias chain `2 ↦ 1 ↦ 0` produced by a
wire aliasing a wire, where only the chain's end has an LID (5), the
implementation's lookup returns the `noLID` sentinel while the spec's
fixpoint lookup returns 5: the lookup does not follow the alias map to a
fixpoint and does not assert. -/
theorem aliasLookup_C6_counterexample :
    getOpLIDval chainState (BValue.opResult 2) = noLID ∧
    specLookupLID chainState (BValue.opResult 2) = some 5 ∧
    noLID ≠ 5 := by decide

theorem specResolveAlias_stop (m : List (Nat × Option Nat)) (o : Nat)
    (h : alookup m o = none) : ∀ fuel, specResolveAlias m fuel o = o := by
  intro fuel
  cases fuel with
  | zero => rfl
  | succ k =>
    unfold specResolveAlias
    rw [h]

/-- Claim C6 amended: the lookup follows exactly one alias step and then
consults the op-LID map; this agrees with the spec's fixpoint lookup whenever
no alias target is itself aliased; when nothing is found and the value is not
a block argument, the sentinel `noLID` is returned (no assertion fires). -/
theorem aliasLookup_C6_amended :
    (∀ st v, flatAliasMap st →
      getOpLIDval st v = (specLookupLID st v).getD noLID) ∧
    (∀ st o, (getOpAlias st (some o)).bind (alookup st.opLIDMap) = none →
      getOpLIDval st (BValue.opResult o) = noLID) := by
  constructor
  · intro st v hflat
    cases v with
    | blockArg idx =>
      simp only [getOpLIDval, specLookupLID, BValue.definingOp, getOpAlias,
        Option.none_bind]
    | opResult o =>
      rcases ha : alookup st.opAliasMap o with _ | t
      · have hres : specResolveAlias st.opAliasMap st.opAliasMap.length o = o :=
          specResolveAlias_stop st.opAliasMap o ha _
        simp only [getOpLIDval, specLookupLID, BValue.definingOp, getOpAlias,
          ha, hres, Option.some_bind]
        rcases hx : alookup st.opLIDMap o with _ | l <;> simp [hx]
      · obtain ⟨t', ht', hstop⟩ := hflat o t ha
        subst ht'
        have hlen : st.opAliasMap.length ≠ 0 := by
          intro hc
          rw [List.length_eq_zero] at hc
          rw [hc] at ha
          simp [alookup] at ha
        have hres : specResolveAlias st.opAliasMap st.opAliasMap.length o = t' := by
          rcases hl : st.opAliasMap.length with _ | k
          · exact absurd hl hlen
          · unfold specResolveAlias
            rw [ha]
            exact specResolveAlias_stop st.opAliasMap t' hstop k
        simp only [getOpLIDval, specLookupLID, BValue.definingOp, getOpAlias,
          ha, hres, Option.some_bind]
        rcases hx : alookup st.opLIDMap t' with _ | l <;> simp [hx]
  · intro st o hnone
    simp only [getOpLIDval, BValue.definingOp, hnone]

/-- Witness for the amended C6: on a flat single-wire alias state the
implementation's lookup and the spec's fixpoint lookup agree, both giving 5. -/
theorem aliasLookup_C6_amended_witness :
    flatAliasMap flatState ∧
    getOpLIDval flatState (BValue.opResult 1) =
      (specLookupLID flatState (BValue.opResult 1)).getD noLID ∧
    getOpLIDval flatState (BValue.opResult 1) = 5 := by
  have hflat : flatAliasMap flatState := by
    intro o t h
    simp only [flatState, alookup] at h
    split at h
    · cases h
      exact ⟨0, rfl, by simp [alookup]⟩
    · simp [alookup] at h
  exact ⟨hflat, aliasLookup_C6_amended.1 flatState (BValue.opResult 1) hflat,
    by decide⟩

/-- Claim C5 counterexample: in `wireNextModule` the register's `next` op is a
wire; the reset-encoding `ite` is line 5, but the emitted `next` line (line 6)
references LID 2 — the alias target's LID — not the `ite`'s LID 5, because
`genNext` resolves the rebound op through one alias step. -/
theorem registerTransition_C5_counterexample :
    (runPass [wireNextModule]).output =
      [OutLine.inst 1 (Instr.sortI "bitvecStr" 1),
       OutLine.inst 2 (Instr.constdI 1 1),
       OutLine.inst 3 (Instr.stateI 1 "r"),
       OutLine.inst 4 (Instr.zeroI 1),
       OutLine.inst 5 (Instr.iteI 1 noLID 4 2),
       OutLine.inst 6 (Instr.nextI 1 3 2),
       OutLine.banner] ∧ (2 : Nat) ≠ 5 := by decide

/-- Claim C5 amended: every register-transition step emits, after the
optional sort and zero lines, an `ite` whose condition LID is the module's
reset LID and whose then-branch LID is the zero constant of the register's
width, immediately followed by the `next` line; the next op's LID is rebound
to the ite's LID, and the `next` line's value LID equals the ite's LID
exactly when the next op carries no alias entry (a wire-typed next instead
makes the `next` line reference the alias target's LID). -/
theorem registerTransition_C5_amended (st : B2State) (r : RegInfo) :
    let st2 := genZero (genSort st bitvecStr r.width) r.width
    let sid := (alookup st2.sortToLIDMap r.width).getD noLID
    let zl := (alookupP st2.constToLIDMap (0, r.width)).getD noLID
    let nl := getOpLIDop st2 r.next.definingOp
    let st3 := genIteLIDs st2 r.next.definingOp st2.resetLID zl nl r.width
    let vl := getOpLIDop st3 r.next.definingOp
    (transitionStep st r).output =
      st2.output ++
        [OutLine.inst st2.lid (Instr.iteI sid st.resetLID zl nl),
         OutLine.inst (st2.lid + 1) (Instr.nextI sid
           (getOpLIDop st3 (some r.opId)) vl)] ∧
    (∀ o, r.next.definingOp = some o → alookup st3.opLIDMap o = some st2.lid) ∧
    (∀ o, r.next.definingOp = some o → alookup st.opAliasMap o = none →
      vl = st2.lid) := by
  intro st2 sid zl nl st3 vl
  have hreset : st2.resetLID = st.resetLID := by
    show (genZero (genSort st bitvecStr r.width) r.width).resetLID = st.resetLID
    rw [genZero_resetLID, genSort_resetLID]
  have halias : st3.opAliasMap = st.opAliasMap := by
    show (genIteLIDs st2 r.next.definingOp st2.resetLID zl nl r.width).opAliasMap
      = st.opAliasMap
    unfold genIteLIDs
    show (setOpLID st2 r.next.definingOp).opAliasMap = st.opAliasMap
    rw [setOpLID_aliasMap]
    show (genZero (genSort st bitvecStr r.width) r.width).opAliasMap = st.opAliasMap
    rw [genZero_aliasMap, genSort_aliasMap]
  have h3out : st3.output =
      st2.output ++ [OutLine.inst st2.lid (Instr.iteI sid st2.resetLID zl nl)] := by
    show (genIteLIDs st2 r.next.definingOp st2.resetLID zl nl r.width).output = _
    unfold genIteLIDs
    simp only [emitLine, setOpLID_output, setOpLID_lid, setOpLID_sortMap]
  have h3lid : st3.lid = st2.lid + 1 := by
    show (genIteLIDs st2 r.next.definingOp st2.resetLID zl nl r.width).lid = _
    unfold genIteLIDs
    simp only [emitLine, setOpLID_lid]
  have h3sort : st3.sortToLIDMap = st2.sortToLIDMap := by
    show (genIteLIDs st2 r.next.definingOp st2.resetLID zl nl r.width).sortToLIDMap = _
    unfold genIteLIDs
    simp only [emitLine, setOpLID_sortMap]
  have hrebind : ∀ o, r.next.definingOp = some o →
      alookup st3.opLIDMap o = some st2.lid := by
    intro o ho
    show alookup (genIteLIDs st2 r.next.definingOp st2.resetLID zl nl
      r.width).opLIDMap o = some st2.lid
    unfold genIteLIDs
    rw [ho]
    show alookup ((o, st2.lid) :: st2.opLIDMap) o = some st2.lid
    rw [alookup_cons, if_pos rfl]
  refine ⟨?_, hrebind, ?_⟩
  · show (genNext st3 r.next.definingOp r.opId r.width).output = _
    unfold genNext
    simp only [emitLine]
    rw [h3out, h3lid, h3sort, hreset]
    simp [List.append_assoc]
  · intro o ho hal
    show getOpLIDop st3 r.next.definingOp = st2.lid
    rw [ho]
    simp only [getOpLIDop, getOpAlias, halias, hal, hrebind o ho]
    rfl

/-- Witness for the amended C5: at the concrete `wireNextModule` transition
state, but with an alias-free register (`regModule1`), the `next` line's
value LID is the ite's LID. -/
theorem registerTransition_C5_amended_witness :
    alookup initB2State.opAliasMap 0 = none ∧
    getOpLIDop
      (genIteLIDs (genZero (genSort initB2State bitvecStr 1) 1)
        (BValue.opResult 0).definingOp
        (genZero (genSort initB2State bitvecStr 1) 1).resetLID
        ((alookupP (genZero (genSort initB2State bitvecStr 1) 1).constToLIDMap
          (0, 1)).getD noLID)
        (getOpLIDop (genZero (genSort initB2State bitvecStr 1) 1)
          (BValue.opResult 0).definingOp) 1)
      (BValue.opResult 0).definingOp =
      (genZero (genSort initB2State bitvecStr 1) 1).lid := by
  refine ⟨by decide, ?_⟩
  exact (registerTransition_C5_amended initB2State ⟨0, 1, "r0", BValue.opResult 0⟩).2.2
    0 rfl (by decide)

theorem foldl_lid_mono {α : Type} {f : B2State → α → B2State}
    (h : ∀ s a, s.lid ≤ (f s a).lid) :
    ∀ (l : List α) (s : B2State), s.lid ≤ (l.foldl f s).lid
  | [], _ => le_refl _
  | a :: l, s => le_trans (h s a) (foldl_lid_mono h l (f s a))

theorem emitLine_lid_mono (st : B2State) (i : Instr) :
    st.lid ≤ (emitLine st i).lid :=
  Nat.le_succ _

theorem genSort_lid_mono (st : B2State) (ty : String) (w : Nat) :
    st.lid ≤ (genSort st ty w).lid := by
  unfold genSort
  split
  · exact le_refl _
  · exact Nat.le_succ _

theorem genZero_lid_mono (st : B2State) (w : Nat) :
    st.lid ≤ (genZero st w).lid := by
  unfold genZero
  split
  · exact le_refl _
  · exact Nat.le_succ _

theorem visitPort_lid_mono (st : B2State) (p : PortInfo) :
    st.lid ≤ (visitPort st p).lid := by
  unfold visitPort
  split
  · split
    · exact le_trans (genSort_lid_mono st bitvecStr p.width) (Nat.le_succ _)
    · exact le_trans (genSort_lid_mono st bitvecStr p.width) (Nat.le_succ _)
  · exact le_refl _

theorem genConst_lid (st : B2State) (v : Int) (w : Nat) (op : Nat) :
    (genConst st v w op).lid = st.lid + 1 := by
  unfold genConst
  simp only [emitLine, setOpLID_lid]

theorem genInput_lid (st : B2State) (w : Nat) (n : String) :
    (genInput st w n).lid = st.lid + 1 := rfl

theorem genBinOp_lid (st : B2State) (inst : String) (binop : Nat)
    (op1 op2 : BValue) (w : Nat) :
    (genBinOp st inst binop op1 op2 w).lid = st.lid + 1 := by
  unfold genBinOp
  simp only [emitLine, setOpLID_lid]

theorem genState_lid (st : B2State) (srcop : Nat) (w : Nat) (n : String) :
    (genState st srcop w n).lid = st.lid + 1 := by
  unfold genState
  simp only [emitLine, setOpLID_lid]

theorem genIteLIDs_lid (st : B2State) (srcop : Option Nat) (c t f w : Nat) :
    (genIteLIDs st srcop c t f w).lid = st.lid + 1 := by
  unfold genIteLIDs
  simp only [emitLine, setOpLID_lid]

theorem genNext_lid (st : B2State) (next : Option Nat) (reg : Nat) (w : Nat) :
    (genNext st next reg w).lid = st.lid + 1 := rfl

theorem visitOp_lid_mono (st : B2State) (op : HWOp) :
    st.lid ≤ (visitOp st op).lid := by
  cases op with
  | constantOp opId w v =>
    simp only [visitOp]
    rw [genConst_lid]
    exact le_trans (genSort_lid_mono st bitvecStr w) (Nat.le_succ _)
  | wireOp opId operand => exact le_refl _
  | binOp opId inst w op1 op2 =>
    simp only [visitOp]
    rw [genBinOp_lid]
    exact le_trans (genSort_lid_mono st bitvecStr w) (Nat.le_succ _)
  | firRegOp r =>
    simp only [visitOp]
    rw [genState_lid]
    exact le_trans (genSort_lid_mono st bitvecStr r.width) (Nat.le_succ _)
  | outputOp => exact le_refl _
  | otherOp => exact le_refl _

theorem transitionStep_lid_mono (st : B2State) (r : RegInfo) :
    st.lid ≤ (transitionStep st r).lid := by
  simp only [transitionStep]
  rw [genNext_lid, genIteLIDs_lid]
  have h1 := genSort_lid_mono st bitvecStr r.width
  have h2 := genZero_lid_mono (genSort st bitvecStr r.width) r.width
  omega

theorem runModule_lid_mono (st : B2State) (m : HWModule) :
    st.lid ≤ (runModule st m).lid := by
  unfold runModule
  refine le_trans (foldl_lid_mono visitPort_lid_mono m.ports st) ?_
  refine le_trans (foldl_lid_mono visitOp_lid_mono m.body _) ?_
  exact foldl_lid_mono transitionStep_lid_mono _ _

theorem out_ext_trans {a b c : B2State}
    (h1 : ∃ n1, b.output = a.output ++ n1)
    (h2 : ∃ n2, c.output = b.output ++ n2) :
    ∃ n3, c.output = a.output ++ n3 := by
  obtain ⟨n1, e1⟩ := h1
  obtain ⟨n2, e2⟩ := h2
  exact ⟨n1 ++ n2, by rw [e2, e1, List.append_assoc]⟩

theorem foldl_out_ext {α : Type} {f : B2State → α → B2State}
    (h : ∀ s a, ∃ new, (f s a).output = s.output ++ new) :
    ∀ (l : List α) (s : B2State), ∃ new, (l.foldl f s).output = s.output ++ new
  | [], s => ⟨[], (List.append_nil s.output).symm⟩
  | a :: l, s => out_ext_trans (h s a) (foldl_out_ext h l (f s a))

theorem genSort_out (st : B2State) (ty : String) (w : Nat) :
    ∃ new, (genSort st ty w).output = st.output ++ new := by
  unfold genSort
  split
  · exact ⟨[], (List.append_nil st.output).symm⟩
  · exact ⟨_, rfl⟩

theorem genZero_out (st : B2State) (w : Nat) :
    ∃ new, (genZero st w).output = st.output ++ new := by
  unfold genZero
  split
  · exact ⟨[], (List.append_nil st.output).symm⟩
  · exact ⟨_, rfl⟩

theorem visitPort_out (st : B2State) (p : PortInfo) :
    ∃ new, (visitPort st p).output = st.output ++ new := by
  unfold visitPort
  split
  · refine out_ext_trans (genSort_out st bitvecStr p.width) ?_
    split
    · exact ⟨_, by simp only [genInput, emitLine]; rfl⟩
    · exact ⟨_, by simp only [genInput, emitLine]; rfl⟩
  · exact ⟨[], (List.append_nil st.output).symm⟩

theorem visitOp_out (st : B2State) (op : HWOp) :
    ∃ new, (visitOp st op).output = st.output ++ new := by
  cases op with
  | constantOp opId w v =>
    refine out_ext_trans (genSort_out st bitvecStr w) ?_
    exact ⟨_, by simp only [visitOp, genConst, emitLine, setOpLID_output]; rfl⟩
  | wireOp opId operand => exact ⟨[], (List.append_nil st.output).symm⟩
  | binOp opId inst w op1 op2 =>
    refine out_ext_trans (genSort_out st bitvecStr w) ?_
    exact ⟨_, by simp only [visitOp, genBinOp, emitLine, setOpLID_output]; rfl⟩
  | firRegOp r =>
    refine out_ext_trans (genSort_out st bitvecStr r.width) ?_
    exact ⟨_, by simp only [visitOp, genState, emitLine, setOpLID_output]; rfl⟩
  | outputOp => exact ⟨[], (List.append_nil st.output).symm⟩
  | otherOp => exact ⟨[], (List.append_nil st.output).symm⟩

theorem genIteLIDs_out (st : B2State) (srcop : Option Nat) (c t f w : Nat) :
    ∃ new, (genIteLIDs st srcop c t f w).output = st.output ++ new :=
  ⟨_, by simp only [genIteLIDs, emitLine, setOpLID_output]; rfl⟩

theorem genNext_out (st : B2State) (next : Option Nat) (reg : Nat) (w : Nat) :
    ∃ new, (genNext st next reg w).output = st.output ++ new :=
  ⟨_, rfl⟩

theorem transitionStep_out (st : B2State) (r : RegInfo) :
    ∃ new, (transitionStep st r).output = st.output ++ new := by
  simp only [transitionStep]
  exact out_ext_trans (genSort_out st bitvecStr r.width)
    (out_ext_trans (genZero_out _ r.width)
      (out_ext_trans (genIteLIDs_out _ _ _ _ _ _) (genNext_out _ _ _ _)))

theorem genSort_regOps (st : B2State) (ty : String) (w : Nat) :
    (genSort st ty w).regOps = st.regOps := by
  unfold genSort; split <;> rfl

theorem genZero_regOps (st : B2State) (w : Nat) :
    (genZero st w).regOps = st.regOps := by
  unfold genZero; split <;> rfl

theorem setOpLID_regOps (st : B2State) (op : Option Nat) :
    (setOpLID st op).regOps = st.regOps := by
  cases op <;> rfl

theorem visitPort_regOps (st : B2State) (p : PortInfo) :
    (visitPort st p).regOps = st.regOps := by
  unfold visitPort
  split
  · simp only [genInput, emitLine]
    split <;> simp [requireSort, genSort_regOps]
  · rfl

theorem visitOp_regOps (st : B2State) (op : HWOp) :
    (visitOp st op).regOps = st.regOps ++ (regOf op).toList := by
  cases op with
  | constantOp opId w v =>
    simp only [visitOp, genConst, emitLine, setOpLID_regOps, regOf]
    simp [requireSort, genSort_regOps]
  | wireOp opId operand => simp [visitOp, regOf]
  | binOp opId inst w op1 op2 =>
    simp only [visitOp, genBinOp, emitLine, setOpLID_regOps, regOf]
    simp [requireSort, genSort_regOps]
  | firRegOp r =>
    simp only [visitOp, genState, emitLine, setOpLID_regOps, regOf]
    simp [requireSort, genSort_regOps]
  | outputOp => simp [visitOp, regOf]
  | otherOp => simp [visitOp, regOf]

theorem transitionStep_regOps (st : B2State) (r : RegInfo) :
    (transitionStep st r).regOps = st.regOps := by
  simp only [transitionStep, genNext, genIteLIDs, emitLine, setOpLID_regOps]
  rw [genZero_regOps, genSort_regOps]

theorem bodyFold_regOps :
    ∀ (body : List HWOp) (st : B2State),
      (body.foldl visitOp st).regOps = st.regOps ++ body.filterMap regOf
  | [], st => by simp
  | op :: body, st => by
    rw [List.foldl_cons, bodyFold_regOps body (visitOp st op), visitOp_regOps]
    cases hro : regOf op <;>
      simp [List.filterMap_cons, hro]

theorem transFold_regOps :
    ∀ (rs : List RegInfo) (st : B2State),
      (rs.foldl transitionStep st).regOps = st.regOps
  | [], _ => rfl
  | r :: rs, st => by
    rw [List.foldl_cons, transFold_regOps rs (transitionStep st r),
      transitionStep_regOps]

theorem portsFold_regOps :
    ∀ (ps : List PortInfo) (st : B2State),
      (ps.foldl visitPort st).regOps = st.regOps
  | [], _ => rfl
  | p :: ps, st => by
    rw [List.foldl_cons, portsFold_regOps ps (visitPort st p), visitPort_regOps]

theorem runModule_regOps (st : B2State) (m : HWModule) :
    (runModule st m).regOps = st.regOps ++ regsOf m := by
  unfold runModule
  show (List.foldl transitionStep
    (m.body.foldl visitOp (m.ports.foldl visitPort st))
    (m.body.foldl visitOp (m.ports.foldl visitPort st)).regOps).regOps = _
  rw [transFold_regOps, bodyFold_regOps, portsFold_regOps]
  rfl

theorem countNext_single_other (l : Nat) (i : Instr)
    (h : ∀ sid rg vl, i ≠ .nextI sid rg vl) :
    countNext [OutLine.inst l i] = 0 := by
  cases i with
  | nextI sid rg vl => exact absurd rfl (h sid rg vl)
  | _ => rfl

theorem genSort_countNext (st : B2State) (ty : String) (w : Nat) :
    countNext (genSort st ty w).output = countNext st.output := by
  unfold genSort
  split
  · rfl
  · show countNext (st.output ++ [OutLine.inst st.lid (Instr.sortI ty w)]) = _
    rw [countNext_append, countNext_single_other _ _ (by intro a b c; simp),
      Nat.add_zero]

theorem genZero_countNext (st : B2State) (w : Nat) :
    countNext (genZero st w).output = countNext st.output := by
  unfold genZero
  split
  · rfl
  · show countNext (st.output ++ [OutLine.inst st.lid (Instr.zeroI _)]) = _
    rw [countNext_append, countNext_single_other _ _ (by intro a b c; simp),
      Nat.add_zero]

theorem visitPort_countNext (st : B2State) (p : PortInfo) :
    countNext (visitPort st p).output = countNext st.output := by
  unfold visitPort
  split
  · simp only [genInput, emitLine]
    split <;>
      (rw [countNext_append, countNext_single_other _ _ (by intro a b c; simp)]
       exact genSort_countNext st bitvecStr p.width)
  · rfl

theorem visitOp_countNext (st : B2State) (op : HWOp) :
    countNext (visitOp st op).output = countNext st.output := by
  cases op with
  | constantOp opId w v =>
    simp only [visitOp, genConst, emitLine, setOpLID_output]
    rw [countNext_append, countNext_single_other _ _ (by intro a b c; simp)]
    exact genSort_countNext st bitvecStr w
  | wireOp opId operand => rfl
  | binOp opId inst w op1 op2 =>
    simp only [visitOp, genBinOp, emitLine, setOpLID_output]
    rw [countNext_append, countNext_single_other _ _ (by intro a b c; simp)]
    exact genSort_countNext st bitvecStr w
  | firRegOp r =>
    simp only [visitOp, genState, emitLine, setOpLID_output]
    rw [countNext_append, countNext_single_other _ _ (by intro a b c; simp)]
    exact genSort_countNext st bitvecStr r.width
  | outputOp => rfl
  | otherOp => rfl

theorem transitionStep_countNext (st : B2State) (r : RegInfo) :
    countNext (transitionStep st r).output = countNext st.output + 1 := by
  simp only [transitionStep, genNext, genIteLIDs, emitLine, setOpLID_output]
  rw [countNext_append, countNext_append,
    countNext_single_other _ _ (by intro a b c; simp),
    genZero_countNext, genSort_countNext]
  simp [countNext, List.filter, isNextLine]

theorem portsFold_countNext :
    ∀ (ps : List PortInfo) (st : B2State),
      countNext ((ps.foldl visitPort st).output) = countNext st.output
  | [], _ => rfl
  | p :: ps, st => by
    rw [List.foldl_cons, portsFold_countNext ps (visitPort st p),
      visitPort_countNext]

theorem bodyFold_countNext :
    ∀ (body : List HWOp) (st : B2State),
      countNext ((body.foldl visitOp st).output) = countNext st.output
  | [], _ => rfl
  | op :: body, st => by
    rw [List.foldl_cons, bodyFold_countNext body (visitOp st op),
      visitOp_countNext]

theorem transFold_countNext :
    ∀ (rs : List RegInfo) (st : B2State),
      countNext ((rs.foldl transitionStep st).output) =
        countNext st.output + rs.length
  | [], _ => by simp
  | r :: rs, st => by
    rw [List.foldl_cons, transFold_countNext rs (transitionStep st r),
      transitionStep_countNext, List.length_cons]
    omega

theorem runModule_countNext (st : B2State) (m : HWModule) :
    countNext (runModule st m).output =
      countNext st.output + st.regOps.length + (regsOf m).length := by
  unfold runModule
  show countNext ((List.foldl transitionStep
    (m.body.foldl visitOp (m.ports.foldl visitPort st))
    (m.body.foldl visitOp (m.ports.foldl visitPort st)).regOps).output ++
      [OutLine.banner]) = _
  rw [countNext_append]
  have hb : countNext [OutLine.banner] = 0 := rfl
  rw [hb, Nat.add_zero, transFold_countNext, bodyFold_countNext,
    portsFold_countNext, bodyFold_regOps, portsFold_regOps, List.length_append]
  show _ = countNext st.output + st.regOps.length + (m.body.filterMap regOf).length
  omega

theorem runModule_out (st : B2State) (m : HWModule) :
    ∃ new, (runModule st m).output = st.output ++ new := by
  simp only [runModule]
  obtain ⟨n, hn⟩ := out_ext_trans (foldl_out_ext visitPort_out m.ports st)
    (out_ext_trans
      (foldl_out_ext visitOp_out m.body (m.ports.foldl visitPort st))
      (foldl_out_ext transitionStep_out
        (m.body.foldl visitOp (m.ports.foldl visitPort st)).regOps
        (m.body.foldl visitOp (m.ports.foldl visitPort st))))
  exact ⟨n ++ [OutLine.banner], by rw [hn, List.append_assoc]⟩

/-- Claim C10: the emission state is owned by the pass and never cleared
between modules: walking a second module extends the first module's stream
with strictly larger LIDs, a sort or zero line already emitted for the first
module is not re-emitted for the second (at most one such line exists in the
combined stream), and the register-transition loop run after the second
module iterates over the first module's registers as well, emitting their
`next` lines again. -/
theorem sharedState_C10 (m1 m2 : HWModule) :
    (∃ rest, (runModule (runModule initB2State m1) m2).output =
      (runModule initB2State m1).output ++ rest ∧
      ∀ l ∈ instLids rest, (runModule initB2State m1).lid ≤ l) ∧
    ((runModule (runModule initB2State m1) m2).lid ≤ noLID →
      ∀ w, countSortW w (runModule (runModule initB2State m1) m2).output ≤ 1) ∧
    ((runModule (runModule initB2State m1) m2).lid ≤ noLID →
      ∀ s, countZeroSid s (runModule (runModule initB2State m1) m2).output ≤ 1) ∧
    (runModule (runModule initB2State m1) m2).regOps = regsOf m1 ++ regsOf m2 ∧
    countNext (runModule initB2State m1).output = (regsOf m1).length ∧
    countNext (runModule (runModule initB2State m1) m2).output =
      2 * (regsOf m1).length + (regsOf m2).length := by
  have h1 : B2Inv (runModule initB2State m1) := b2inv_runModule b2inv_init m1
  have h2 : B2Inv (runModule (runModule initB2State m1) m2) :=
    b2inv_runModule h1 m2
  have hmono := runModule_lid_mono (runModule initB2State m1) m2
  refine ⟨?_, ?_, ?_, ?_, ?_, ?_⟩
  · obtain ⟨rest, hrest⟩ := runModule_out (runModule initB2State m1) m2
    refine ⟨rest, hrest, ?_⟩
    have heq : instLids (runModule initB2State m1).output ++ instLids rest =
        List.range' 1 ((runModule (runModule initB2State m1) m2).lid - 1) := by
      rw [← instLids_append, ← hrest]
      exact h2.lids
    have hsplit : List.range' 1 ((runModule (runModule initB2State m1) m2).lid - 1) =
        List.range' 1 ((runModule initB2State m1).lid - 1) ++
          List.range' ((runModule initB2State m1).lid)
            ((runModule (runModule initB2State m1) m2).lid -
              (runModule initB2State m1).lid) := by
      have hp := h1.pos
      have harith : (runModule (runModule initB2State m1) m2).lid - 1 =
          ((runModule (runModule initB2State m1) m2).lid -
            (runModule initB2State m1).lid) +
          ((runModule initB2State m1).lid - 1) := by omega
      rw [harith, ← List.range'_append,
        show 1 + 1 * ((runModule initB2State m1).lid - 1) =
          (runModule initB2State m1).lid from by omega]
    rw [h1.lids, hsplit] at heq
    have hrest2 := List.append_cancel_left heq
    intro l hl
    rw [hrest2] at hl
    rw [List.mem_range'] at hl
    obtain ⟨i, hi, hli⟩ := hl
    omega
  · intro hle w
    have := h2.sortCount hle w
    rw [this]
    split <;> omega
  · intro hle s
    exact (h2.zeroCount hle s).1
  · rw [runModule_regOps, runModule_regOps]
    rfl
  · rw [runModule_countNext]
    have e1 : countNext initB2State.output = 0 := rfl
    have e2 : initB2State.regOps.length = 0 := rfl
    omega
  · rw [runModule_countNext, runModule_countNext, runModule_regOps]
    have e1 : countNext initB2State.output = 0 := rfl
    have e2 : initB2State.regOps.length = 0 := rfl
    have e3 : (initB2State.regOps ++ regsOf m1).length =
        initB2State.regOps.length + (regsOf m1).length := List.length_append _ _
    omega

/-- Witness for C10 over two one-register modules: the counter is far from
the sentinel, the shared sort line appears once, and three `next` lines are
emitted - one for module 1's walk and two (both registers) for module 2's. -/
theorem sharedState_C10_witness :
    (runModule (runModule initB2State regModule1) regModule2).lid ≤ noLID ∧
    countSortW 1 (runModule (runModule initB2State regModule1) regModule2).output ≤ 1 ∧
    countNext (runModule (runModule initB2State regModule1) regModule2).output =
      2 * (regsOf regModule1).length + (regsOf regModule2).length := by
  refine ⟨by decide, ?_, ?_⟩
  · exact (sharedState_C10 regModule1 regModule2).2.1 (by decide) 1
  · exact (sharedState_C10 regModule1 regModule2).2.2.2.2.2

theorem lor_lt_two {a b : Nat} (ha : a < 2) (hb : b < 2) : a ||| b < 2 := by
  interval_cases a <;> interval_cases b <;> decide

/-- Claim C3: lowering `has_been_reset(clk, reset)` produces `reg AND (NOT
reset)` where `reg` is a 1-bit register, itself unreset, with input
`reset OR reg` and power-on value 0 (the negation encoded as xor with the
1-bit constant 1); per cycle the output is 1 iff the register holds 1 and
reset is currently low, and on the input trace `1,1,0,0,1,0` the output trace
is `0,0,1,1,0,1`. -/
theorem hasBeenReset_C3 :
    hbrLower.1.regs =
      [{ width := 1, input := CExpr.orE (.varE "reset") (.regE 0),
         resetSig := none, resetVal := none, name := "hbr",
         powerOn := some (.constE 1 0) }] ∧
    hbrLower.2 = CExpr.andE (.regE 0) (.xorE (.varE "reset") (.constE 1 1)) ∧
    (∀ rt : Nat → Nat, hbrState rt 0 = 0 ∧
      ∀ t, hbrState rt (t + 1) = rt t ||| hbrState rt t) ∧
    (∀ rt : Nat → Nat, (∀ t, rt t < 2) → ∀ t,
      hbrOut rt t = if hbrState rt t = 1 ∧ rt t = 0 then 1 else 0) ∧
    (List.range 6).map (hbrOut hbrExampleReset) = [0, 0, 1, 1, 0, 1] := by
  have hregs : hbrLower.1.regs =
      [{ width := 1, input := CExpr.orE (.varE "reset") (.regE 0),
         resetSig := none, resetVal := none, name := "hbr",
         powerOn := some (.constE 1 0) }] := rfl
  have hstep : ∀ (rt : Nat → Nat) (t : Nat),
      hbrState rt (t + 1) = rt t ||| hbrState rt t := by
    intro rt t
    show regStepF hbrLower.1.regs (hbrEnv rt t)
      (regTrace hbrLower.1.regs (hbrEnv rt) t) 0 = _
    rw [hregs]
    simp [regStepF, evalC, hbrEnv, hbrState, hregs]
  have hout : ∀ (rt : Nat → Nat) (t : Nat),
      hbrOut rt t = hbrState rt t &&& (rt t ^^^ 1) := by
    intro rt t
    show evalC (hbrEnv rt t) (regTrace hbrLower.1.regs (hbrEnv rt) t)
      hbrLower.2 = _
    simp [evalC, hbrEnv, hbrState]
  have hbound : ∀ (rt : Nat → Nat), (∀ t, rt t < 2) →
      ∀ t, hbrState rt t < 2 := by
    intro rt hrt t
    induction t with
    | zero =>
      have h0 : hbrState rt 0 = 0 := rfl
      rw [h0]
      decide
    | succ k ih =>
      rw [hstep]
      exact lor_lt_two (hrt k) ih
  refine ⟨hregs, rfl, fun rt => ⟨rfl, hstep rt⟩, ?_, by decide⟩
  intro rt hrt t
  rw [hout]
  have h1 := hbound rt hrt t
  have h2 := hrt t
  generalize hbrState rt t = a at h1 ⊢
  generalize rt t = b at h2 ⊢
  interval_cases a <;> interval_cases b <;> decide

/-- Witness for C3: the hypothesis that the example reset trace is 1-bit,
discharged concretely, applied at cycle 2 where the output reads 1. -/
theorem hasBeenReset_C3_witness :
    (∀ t, hbrExampleReset t < 2) ∧
    hbrOut hbrExampleReset 2 =
      (if hbrState hbrExampleReset 2 = 1 ∧ hbrExampleReset 2 = 0
       then 1 else 0) := by
  have hb : ∀ t, hbrExampleReset t < 2 := by
    intro t
    match t with
    | 0 | 1 | 2 | 3 | 4 | 5 => decide
    | k + 6 =>
      show [1, 1, 0, 0, 1, 0].getD (k + 6) 0 < 2
      rw [List.getD_eq_default]
      · decide
      · simp only [List.length_cons, List.length_nil]
        omega
  exact ⟨hb, hasBeenReset_C3.2.2.2.1 hbrExampleReset hb 2⟩

/-- Claim C4: for every matched overlapping implication
`assert(clock(disable(implication(a, b), d), clk))`, the condition wrapped in
the generated immediate assertion is `d OR ((a XOR 1) OR b)` — the negation
of `a` encoded as a xor with the 1-bit constant 1 — which as a Boolean
function is `d OR ((NOT a) OR b)`. -/
theorem oiCondition_C4 (na nb nd nclk : String) (e : ClockEdge) :
    ∃ la, (assertRewrite (oiProp na nb nd nclk e)).1 = .ok la ∧
      la.cond = CExpr.orE (.varE nd)
        (.orE (.xorE (.varE na) (.constE 1 1)) (.varE nb)) ∧
      la.deferKind = "Immediate" ∧ la.edge = e ∧
      (∀ env st, env na < 2 → env nb < 2 → env nd < 2 →
        (evalC env st la.cond = 1 ↔
          (env nd = 1 ∨ env na = 0 ∨ env nb = 1))) := by
  refine ⟨_, rfl, rfl, rfl, rfl, ?_⟩
  intro env st h1 h2 h3
  simp only [evalC]
  norm_num
  generalize env na = a at h1 ⊢
  generalize env nb = b at h2 ⊢
  generalize env nd = d at h3 ⊢
  interval_cases a <;> interval_cases b <;> interval_cases d <;> decide

/-- Witness for C4: a concrete environment with the antecedent low makes the
generated condition read 1. -/
theorem oiCondition_C4_witness :
    ∃ la, (assertRewrite (oiProp "a" "b" "d" "clk" ClockEdge.pos)).1 = .ok la ∧
      evalC (fun _ => 0) (fun _ => 0) la.cond = 1 := by
  obtain ⟨la, h1, h2, h3, h4, h5⟩ := oiCondition_C4 "a" "b" "d" "clk" .pos
  refine ⟨la, h1, ?_⟩
  rw [(h5 (fun _ => 0) (fun _ => 0) (by decide) (by decide) (by decide)).mpr]
  right
  left
  rfl

theorem finishAssert_isOk (d : PVal) (e : ClockEdge) (clk : PVal)
    (di : CExpr) (rw : RW) (er : List String) :
    ∃ la rw', finishAssert d e clk di rw er = (.ok la, rw') :=
  ⟨_, _, rfl⟩

/-- Claim C8: a matched NOI shape with a non-zero delay length is rejected
with the diagnostic ` Delay must have a length of 0!`; a property matching
none of the three recognized shapes is rejected with `AssertProperty format
is invalid!`; and on every failing rewrite the rewriter log is empty — no
operation is created, replaced or erased. -/
theorem assertFailure_C8 :
    (∀ p nb, matchNOI p = some nb → nb.len ≠ 0 →
      assertRewrite p = (.error " Delay must have a length of 0!", RW.empty)) ∧
    (∀ p, matchNOI p = none → matchOI p = none → matchGen p = none →
      assertRewrite p = (.error "AssertProperty format is invalid!", RW.empty)) ∧
    (∀ p msg rw, assertRewrite p = (.error msg, rw) →
      rw.events = [] ∧ rw.regs = []) := by
  refine ⟨?_, ?_, ?_⟩
  · intro p nb hm hlen
    simp only [assertRewrite, hm, if_pos hlen]
  · intro p h1 h2 h3
    simp only [assertRewrite, h1, h2, h3]
  · intro p msg rw h
    rcases hN : matchNOI p with _ | nb
    · rcases hO : matchOI p with _ | ob
      · rcases hG : matchGen p with _ | gb
        · simp only [assertRewrite, hN, hO, hG] at h
          have : rw = RW.empty := (Prod.mk.injEq _ _ _ _).mp h |>.2.symm
          rw [this]
          exact ⟨rfl, rfl⟩
        · simp only [assertRewrite, hN, hO, hG] at h
          obtain ⟨la, rw', heq⟩ := finishAssert_isOk gb.d gb.edge gb.clk
            (pvalToExpr gb.x) RW.empty ["ltl.clock"]
          rw [heq] at h
          have := (Prod.mk.injEq _ _ _ _).mp h |>.1
          cases this
      · simp only [assertRewrite, hN, hO] at h
        obtain ⟨la, rw', heq⟩ := finishAssert_isOk ob.d ob.edge ob.clk
          (makeImplication (pvalToExpr ob.a) (pvalToExpr ob.b) RW.empty).2
          (makeImplication (pvalToExpr ob.a) (pvalToExpr ob.b) RW.empty).1
          ["ltl.clock", "ltl.implication"]
        rw [heq] at h
        have := (Prod.mk.injEq _ _ _ _).mp h |>.1
        cases this
    · simp only [assertRewrite, hN] at h
      by_cases hlen : nb.len ≠ 0
      · rw [if_pos hlen] at h
        have : rw = RW.empty := (Prod.mk.injEq _ _ _ _).mp h |>.2.symm
        rw [this]
        exact ⟨rfl, rfl⟩
      · rw [if_neg hlen] at h
        obtain ⟨la, rw', heq⟩ := finishAssert_isOk nb.d nb.edge nb.clk
          (makeNOI (pvalToExpr nb.a) (pvalToExpr nb.b) nb.n (pvalToExpr nb.d)
            RW.empty).2
          (makeNOI (pvalToExpr nb.a) (pvalToExpr nb.b) nb.n (pvalToExpr nb.d)
            RW.empty).1
          ["ltl.clock", "ltl.implication", "ltl.concat", "ltl.delay"]
        rw [heq] at h
        have := (Prod.mk.injEq _ _ _ _).mp h |>.1
        cases this

/-- Witness for C8: concrete failing inputs — an NOI shape with delay length
1, and a bare 1-bit value (no clock/disable wrapper). -/
theorem assertFailure_C8_witness :
    assertRewrite (noiProp "a" "b" "d" "clk" ClockEdge.pos 3 1) =
      (.error " Delay must have a length of 0!", RW.empty) ∧
    assertRewrite (PVal.boolVal "x") =
      (.error "AssertProperty format is invalid!", RW.empty) :=
  ⟨assertFailure_C8.1 (noiProp "a" "b" "d" "clk" ClockEdge.pos 3 1)
      ⟨.boolVal "a", 3, 1, .boolVal "b", .boolVal "d", .boolVal "clk",
        ClockEdge.pos⟩ rfl (by decide),
   assertFailure_C8.2.1 (PVal.boolVal "x") rfl rfl rfl⟩

theorem noiPipeline_spec (dc rv : CExpr) :
    ∀ (k : Nat) (rw : RW) (a : CExpr),
      ((noiPipeline dc rv k (rw, a)).1).regs.length = rw.regs.length + k ∧
      (noiPipeline dc rv k (rw, a)).2 =
        (if k = 0 then a else CExpr.regE (rw.regs.length + k - 1)) ∧
      (∀ i, ((noiPipeline dc rv k (rw, a)).1).regs[i]? =
        if i < rw.regs.length then rw.regs[i]?
        else if i < rw.regs.length + k then
          some { width := 1,
                 input := if i = rw.regs.length then a else CExpr.regE (i - 1),
                 resetSig := some dc, resetVal := some rv,
                 name := "antecedent_" ++ toString (i - rw.regs.length + 1),
                 powerOn := some rv }
        else none)
  | 0, rw, a => by
    refine ⟨by simp [noiPipeline], by simp [noiPipeline], ?_⟩
    intro i
    show rw.regs[i]? = _
    by_cases hi : i < rw.regs.length
    · rw [if_pos hi]
    · rw [if_neg hi, if_neg (by omega)]
      exact List.getElem?_eq_none (by omega)
  | k + 1, rw, a => by
    obtain ⟨ihlen, ihout, ihget⟩ := noiPipeline_spec dc rv k rw a
    have hstep : noiPipeline dc rv (k + 1) (rw, a) =
        mkReg (noiPipeline dc rv k (rw, a)).1
          { width := 1, input := (noiPipeline dc rv k (rw, a)).2,
            resetSig := some dc, resetVal := some rv,
            name := "antecedent_" ++ toString (k + 1),
            powerOn := some rv } := rfl
    rw [hstep]
    refine ⟨?_, ?_, ?_⟩
    · show ((noiPipeline dc rv k (rw, a)).1.regs ++ [_]).length = _
      rw [List.length_append, ihlen]
      simp only [List.length_singleton]
      omega
    · show CExpr.regE (noiPipeline dc rv k (rw, a)).1.regs.length = _
      rw [ihlen, if_neg (show ¬ k + 1 = 0 from by omega)]
      congr 1
    · intro i
      show ((noiPipeline dc rv k (rw, a)).1.regs ++ [_])[i]? = _
      rw [List.getElem?_append, ihlen]
      by_cases hi1 : i < rw.regs.length + k
      · rw [if_pos hi1, ihget i]
        by_cases hi2 : i < rw.regs.length
        · rw [if_pos hi2, if_pos hi2]
        · rw [if_neg hi2, if_neg hi2, if_pos hi1,
            if_pos (show i < rw.regs.length + (k + 1) from by omega)]
      · rw [if_neg hi1]
        by_cases hi3 : i = rw.regs.length + k
        · subst hi3
          have hz : rw.regs.length + k - (rw.regs.length + k) = 0 := by omega
          rw [hz, List.getElem?_cons_zero,
            if_neg (show ¬ rw.regs.length + k < rw.regs.length from by omega),
            if_pos (show rw.regs.length + k < rw.regs.length + (k + 1) from
              by omega), ihout]
          have harg : rw.regs.length + k - rw.regs.length + 1 = k + 1 := by
            omega
          rw [harg]
          by_cases hk : k = 0
          · subst hk
            rw [if_pos rfl,
              if_pos (show rw.regs.length + 0 = rw.regs.length from by omega)]
          · rw [if_neg hk,
              if_neg (show ¬ rw.regs.length + k = rw.regs.length from
                by omega)]
        · rw [if_neg (show ¬ i < rw.regs.length from by omega),
            if_neg (show ¬ i < rw.regs.length + (k + 1) from by omega)]
          refine List.getElem?_eq_none ?_
          simp only [List.length_singleton]
          omega

theorem makeNOI_spec (n : Nat) (hn : 1 ≤ n) (a b d : CExpr) :
    (makeNOI a b n d RW.empty).1.regs.length = n + 1 ∧
    (makeNOI a b n d RW.empty).1.regs[0]? = some
      { width := llvmLog2_64 n + 1,
        input := CExpr.muxE
          (.eqE (.regE 0) (.constE (llvmLog2_64 n + 1) n))
          (.constE (llvmLog2_64 n + 1) n)
          (.addE (llvmLog2_64 n + 1) (.regE 0) (.constE (llvmLog2_64 n + 1) 1)),
        resetSig := some d, resetVal := some (.constE (llvmLog2_64 n + 1) 0),
        name := "delay_", powerOn := some (.constE (llvmLog2_64 n + 1) 0) } ∧
    (∀ i, i < n → (makeNOI a b n d RW.empty).1.regs[i + 1]? = some
      { width := 1, input := if i = 0 then a else CExpr.regE i,
        resetSig := some d, resetVal := some (.constE 1 0),
        name := "antecedent_" ++ toString i,
        powerOn := some (.constE 1 0) }) ∧
    (makeNOI a b n d RW.empty).2 = CExpr.orE
      (.orE (.ultE (.regE 0) (.constE (llvmLog2_64 n + 1) n))
        (.orE (.xorE (.regE n) (.constE 1 1)) b)) d := by
  simp only [makeNOI, mkOp, mkReg, RW.empty, List.nil_append, List.cons_append,
    List.length_nil, List.length_cons, Nat.zero_add]
  obtain ⟨hlen, hout, hget⟩ := noiPipeline_spec d (CExpr.constE 1 0) (n - 1)
    ⟨[RWEvent.created "hw.constant", RWEvent.created "hw.constant",
      RWEvent.created "comb.add", RWEvent.created "hw.constant",
      RWEvent.created "comb.icmp", RWEvent.created "comb.mux",
      RWEvent.created "seq.to_clock", RWEvent.created "seq.compreg",
      RWEvent.created "hw.constant", RWEvent.created "seq.compreg"],
     [{ width := llvmLog2_64 n + 1,
        input := CExpr.muxE
          (.eqE (.regE 0) (.constE (llvmLog2_64 n + 1) n))
          (.constE (llvmLog2_64 n + 1) n)
          (.addE (llvmLog2_64 n + 1) (.regE 0) (.constE (llvmLog2_64 n + 1) 1)),
        resetSig := some d, resetVal := some (.constE (llvmLog2_64 n + 1) 0),
        name := "delay_", powerOn := some (.constE (llvmLog2_64 n + 1) 0) },
      { width := 1, input := a, resetSig := some d,
        resetVal := some (.constE 1 0), name := "antecedent_0",
        powerOn := some (.constE 1 0) }]⟩ (CExpr.regE 1)
  have hb2 : ((⟨[RWEvent.created "hw.constant", RWEvent.created "hw.constant",
      RWEvent.created "comb.add", RWEvent.created "hw.constant",
      RWEvent.created "comb.icmp", RWEvent.created "comb.mux",
      RWEvent.created "seq.to_clock", RWEvent.created "seq.compreg",
      RWEvent.created "hw.constant", RWEvent.created "seq.compreg"],
     [{ width := llvmLog2_64 n + 1,
        input := CExpr.muxE
          (.eqE (.regE 0) (.constE (llvmLog2_64 n + 1) n))
          (.constE (llvmLog2_64 n + 1) n)
          (.addE (llvmLog2_64 n + 1) (.regE 0) (.constE (llvmLog2_64 n + 1) 1)),
        resetSig := some d, resetVal := some (.constE (llvmLog2_64 n + 1) 0),
        name := "delay_", powerOn := some (.constE (llvmLog2_64 n + 1) 0) },
      { width := 1, input := a, resetSig := some d,
        resetVal := some (.constE 1 0), name := "antecedent_0",
        powerOn := some (.constE 1 0) }]⟩ : RW)).regs.length = 2 := rfl
  simp only [hb2] at hlen hout hget
  refine ⟨?_, ?_, ?_, ?_⟩
  · rw [hlen]
    omega
  · rw [hget 0, if_pos (show (0 : Nat) < 2 from by omega)]
    rfl
  · intro i hi
    rw [hget (i + 1)]
    rcases Nat.lt_or_ge i 1 with hi1 | hi1
    · have hi0 : i = 0 := by omega
      subst hi0
      rw [if_pos (show (1 : Nat) < 2 from by omega)]
      rfl
    · rw [if_neg (show ¬ i + 1 < 2 from by omega),
        if_pos (show i + 1 < 2 + (n - 1) from by omega)]
      have h1 : i + 1 - 2 + 1 = i := by omega
      rw [h1]
      by_cases hidx : i + 1 = 2
      · have hi2 : i = 1 := by omega
        subst hi2
        rw [if_pos rfl, if_neg (show (1 : Nat) ≠ 0 from by decide)]
      · rw [if_neg hidx]
        have h2 : i + 1 - 1 = i := by omega
        rw [h2, if_neg (show i ≠ 0 from by omega)]
  · rw [hout]
    by_cases hone : n - 1 = 0
    · rw [if_pos hone]
      have hn1 : n = 1 := by omega
      subst hn1
      rfl
    · rw [if_neg hone]
      have h3 : 2 + (n - 1) - 1 = n := by omega
      rw [h3]

theorem llvmLog2_64_pos {n : Nat} (hn : 1 ≤ n) : llvmLog2_64 n = Nat.log2 n := by
  unfold llvmLog2_64
  rw [if_neg (by omega)]

/-- Claim C2: a matched non-overlapping implication with delay `n ≥ 1`
synthesizes a delay counter register of width `⌊log2 n⌋ + 1` whose next value
is `count == n ? n : count + 1` and which is reset to 0 while the disable
condition is high, a pipeline of `n` antecedent registers `antecedent_0 …
antecedent_{n-1}` each reset to 0 by the disable condition, and a final
assertion condition equal (as a Boolean function) to
`(count < n) OR ((NOT a_{n-1}) OR b) OR disable`. -/
theorem noiSynthesis_C2 (n : Nat) (e : ClockEdge) (hn : 1 ≤ n) :
    ∃ la, (assertRewrite (noiProp "a" "b" "d" "clk" e n 0)).1 = Except.ok la ∧
      (assertRewrite (noiProp "a" "b" "d" "clk" e n 0)).2.regs.length = n + 1 ∧
      (assertRewrite (noiProp "a" "b" "d" "clk" e n 0)).2.regs[0]? =
        some (noiDelayReg n) ∧
      (∀ env st, st 0 ≤ n → evalC env st (noiDelayReg n).input =
        if st 0 = n then n else st 0 + 1) ∧
      (∀ env st, env "d" = 1 → ∀ i, i ≤ n →
        regStepF (assertRewrite (noiProp "a" "b" "d" "clk" e n 0)).2.regs
          env st i = 0) ∧
      (∀ i, i < n →
        (assertRewrite (noiProp "a" "b" "d" "clk" e n 0)).2.regs[i + 1]? =
          some (noiPipeReg i)) ∧
      la.cond = CExpr.orE (.varE "d")
        (.orE (.orE (.ultE (.regE 0) (.constE (noiDelayWidth n) n))
          (.orE (.xorE (.regE n) (.constE 1 1)) (.varE "b"))) (.varE "d")) ∧
      (∀ env st, env "b" < 2 → env "d" < 2 → st n < 2 →
        (evalC env st la.cond = 1 ↔
          (st 0 < n ∨ st n = 0 ∨ env "b" = 1 ∨ env "d" = 1))) := by
  have hw := llvmLog2_64_pos hn
  obtain ⟨hlen, h0, hpipe, hout⟩ :=
    makeNOI_spec n hn (CExpr.varE "a") (CExpr.varE "b") (CExpr.varE "d")
  rw [hw] at h0 hout
  have hnlt : n < 2 ^ (Nat.log2 n + 1) := Nat.lt_log2_self
  have hmod : n % 2 ^ (Nat.log2 n + 1) = n := Nat.mod_eq_of_lt hnlt
  have h2w : 1 < 2 ^ (Nat.log2 n + 1) := by
    have : (2 : Nat) ^ 1 ≤ 2 ^ (Nat.log2 n + 1) :=
      Nat.pow_le_pow_right (by omega) (by omega)
    omega
  have h1m : 1 % 2 ^ (Nat.log2 n + 1) = 1 := Nat.mod_eq_of_lt h2w
  have hcnt : ∀ env st, st 0 ≤ n → evalC env st (noiDelayReg n).input =
      if st 0 = n then n else st 0 + 1 := by
    intro env st hle
    simp only [noiDelayReg, noiDelayWidth, evalC, hmod, h1m]
    by_cases he : st 0 = n
    · simp [he]
    · have hlt : st 0 + 1 < 2 ^ (Nat.log2 n + 1) := by omega
      simp [he, Nat.mod_eq_of_lt hlt]
  refine ⟨⟨CExpr.orE (CExpr.varE "d")
      ((makeNOI (CExpr.varE "a") (CExpr.varE "b") n (CExpr.varE "d")
        RW.empty).2), e, CExpr.varE "clk", "Immediate",
      ["ltl.clock", "ltl.implication", "ltl.concat", "ltl.delay"]⟩,
    rfl, hlen, ?_, hcnt, ?_, ?_, ?_, ?_⟩
  · show (makeNOI (CExpr.varE "a") (CExpr.varE "b") n (CExpr.varE "d")
      RW.empty).1.regs[0]? = some (noiDelayReg n)
    rw [h0]
    rfl
  · intro env st hd i hi
    show regStepF (makeNOI (CExpr.varE "a") (CExpr.varE "b") n (CExpr.varE "d")
      RW.empty).1.regs env st i = 0
    rcases i with _ | j
    · unfold regStepF
      rw [h0]
      simp [evalC, hd, Nat.zero_mod, noiDelayReg, noiDelayWidth]
    · have hj : j < n := by omega
      unfold regStepF
      rw [hpipe j hj]
      simp [evalC, hd, Nat.zero_mod]
  · intro i hi
    show (makeNOI (CExpr.varE "a") (CExpr.varE "b") n (CExpr.varE "d")
      RW.empty).1.regs[i + 1]? = some (noiPipeReg i)
    rw [hpipe i hi]
    rfl
  · show CExpr.orE (.varE "d")
      (makeNOI (CExpr.varE "a") (CExpr.varE "b") n (CExpr.varE "d")
        RW.empty).2 = _
    rw [hout]
    rfl
  · intro env st hb hd hsn
    show evalC env st (CExpr.orE (.varE "d")
      (makeNOI (CExpr.varE "a") (CExpr.varE "b") n (CExpr.varE "d")
        RW.empty).2) = 1 ↔ _
    rw [hout]
    simp only [evalC, hmod]
    have h11 : 1 % 2 ^ 1 = 1 := by decide
    rw [h11]
    generalize env "d" = d at hd ⊢
    generalize env "b" = b at hb ⊢
    generalize st n = an at hsn ⊢
    by_cases hlt : st 0 < n
    · rw [if_pos hlt]
      interval_cases d <;> interval_cases b <;> interval_cases an <;>
        simp [hlt]
    · rw [if_neg hlt]
      interval_cases d <;> interval_cases b <;> interval_cases an <;>
        simp [hlt]

/-- Witness for C2 at `n = 3` (the spec's scenario 2): four registers in
total, a 2-bit counter whose next value from state 0 is 1, and a pipeline
stage that resets to 0 while disable is high. -/
theorem noiSynthesis_C2_witness :
    1 ≤ 3 ∧
    (assertRewrite (noiProp "a" "b" "d" "clk" ClockEdge.pos 3 0)).2.regs.length
      = 4 ∧
    noiDelayWidth 3 = 2 ∧
    evalC (fun _ => 0) (fun _ => 0) (noiDelayReg 3).input = 1 ∧
    regStepF (assertRewrite (noiProp "a" "b" "d" "clk" ClockEdge.pos 3 0)).2.regs
      (fun _ => 1) (fun _ => 0) 0 = 0 := by
  obtain ⟨la, h1, h2, h3, h4, h5, h6, h7, h8⟩ :=
    noiSynthesis_C2 3 ClockEdge.pos (by decide)
  refine ⟨by decide, h2, by norm_num [noiDelayWidth, Nat.log2], ?_, ?_⟩
  · have hv := h4 (fun _ => 0) (fun _ => 0) (by decide)
    simpa using hv
  · exact h5 (fun _ => 1) (fun _ => 0) rfl 0 (by decide)
